import Mathlib

/-!
Shallow embedding of `src/convert.py` (google-timeline-to-csv).

The program reads monthly Google Semantic Location History JSON files,
classifies each timeline record as an activity segment or a place visit,
extracts a fixed set of fields per record, accumulates two tables,
sorts each by `start_time` and writes `activity.csv` / `visit.csv`.

Modelling conventions:
* JSON values are an inductive `Json`; JSON numbers are modelled as
  integers (no claim depends on non-integral numerics).
* Python `None` and JSON `null` coincide: a dataframe cell is
  `Option Json` with `none` standing for Python `None` / missing (NaN).
* Python exceptions are modelled with `Except`.  A `KeyError` caught by
  `load_timeline_obj` becomes `RunFailure.exit1 msg` (the program prints
  the message and a traceback and calls `sys.exit(1)`); any other
  uncaught exception (`TypeError`/`AttributeError`/uncaught `KeyError`)
  becomes `RunFailure.uncaught`.  Either way the run terminates with a
  non-zero status before any output file is written.
* File-system traversal is abstracted: the converter is modelled as a
  function of the list of parsed JSON file contents, in the order
  `input_dir.glob` yields them.
-/

/-- JSON values as produced by Python `json.load`.  Numbers are modelled
as integers. -/
inductive Json where
  | null : Json
  | bool : Bool → Json
  | num : Int → Json
  | str : String → Json
  | arr : List Json → Json
  | obj : List (String × Json) → Json
deriving Repr

/-- Python exceptions that the relevant code can raise.  `keyError k`
carries the missing key (Python prints the key for a `KeyError`);
`typeError` stands for any non-KeyError fault (TypeError /
AttributeError on a non-mapping value). -/
inductive PyErr where
  | keyError : String → PyErr
  | typeError : PyErr
deriving Repr, DecidableEq

/-- Outcome of a fault during the run: a `KeyError` caught in
`load_timeline_obj` leads to `sys.exit(1)` after printing the message
(`exit1`), every other exception escapes uncaught (`uncaught`).  Both
terminate the run with a non-zero exit status and no output files. -/
inductive RunFailure where
  | exit1 : String → RunFailure
  | uncaught : RunFailure
deriving Repr, DecidableEq

/-- Raw lookup in a JSON object, first binding wins (keys of an object
coming from `json.load` are unique). -/
def dictFind (d : List (String × Json)) (k : String) : Option Json :=
  (d.find? (fun kv => kv.fst == k)).map (fun kv => kv.snd)

/-- Python `d[k]` on a dict: `KeyError` when the key is absent. -/
def dictIndex (d : List (String × Json)) (k : String) : Except PyErr Json :=
  match dictFind d k with
  | some v => Except.ok v
  | none => Except.error (PyErr.keyError k)

/-- Python `d.get(k, None)`.  A stored JSON `null` is the Python value
`None`, the same value the default produces, so both collapse to
`none`. -/
def pyGet (d : List (String × Json)) (k : String) : Option Json :=
  match dictFind d k with
  | some Json.null => none
  | some v => some v
  | none => none

/-- Python `k in d.keys()`. -/
def containsKey (d : List (String × Json)) (k : String) : Bool :=
  d.any (fun kv => kv.fst == k)

/-- Subscripting / attribute access that requires a mapping: any
non-object operand raises a non-KeyError fault. -/
def asObj : Json → Except PyErr (List (String × Json))
  | Json.obj d => Except.ok d
  | _ => Except.error PyErr.typeError

/-- Python `len` for the values it is applied to in `convert.py`;
non-sized values raise `TypeError`. -/
def pyLen : Json → Except PyErr Nat
  | Json.obj d => Except.ok d.length
  | Json.arr l => Except.ok l.length
  | Json.str s => Except.ok s.length
  | _ => Except.error PyErr.typeError

/-- A dataframe cell: `none` is Python `None` (NaN once in a column). -/
abbrev Cell := Option Json

/-- A dataframe row, as the ordered list of its cells. -/
abbrev Row := List Cell

/-- Column names of the activity table (`ACTIVITY_COLS`, convert.py
lines 9-19). -/
def ACTIVITY_COLS : List String :=
  ["timeline_type", "start_latitude", "start_longitude", "end_latitude",
   "end_longitude", "start_time", "end_time", "distance", "activity_type"]

/-- Column names of the visit table (`VISIT_COLS`, convert.py lines
21-30). -/
def VISIT_COLS : List String :=
  ["timeline_type", "location_latitude", "location_longitude", "place_id",
   "address", "name", "start_time", "end_time"]

/-- `load_activity` (convert.py lines 33-58): the record's
`activitySegment` value and its `startLocation` / `endLocation` /
`duration` entries are obtained with plain subscripting (`KeyError`
when absent, `TypeError` when not a mapping); the leaf fields use
`.get(..., None)`.  Returns the single activity row. -/
def load_activity (timeline_obj : List (String × Json)) : Except PyErr Row := do
  let activity ← asObj (← dictIndex timeline_obj "activitySegment")
  let startLocation ← asObj (← dictIndex activity "startLocation")
  let start_lat := pyGet startLocation "latitudeE7"
  let start_lon := pyGet startLocation "longitudeE7"
  let endLocation ← asObj (← dictIndex activity "endLocation")
  let end_lat := pyGet endLocation "latitudeE7"
  let end_lon := pyGet endLocation "longitudeE7"
  let duration ← asObj (← dictIndex activity "duration")
  let start_time := pyGet duration "startTimestamp"
  let end_time := pyGet duration "endTimestamp"
  let distance := pyGet activity "distance"
  let activity_type := pyGet activity "activityType"
  return [some (Json.str "activity"), start_lat, start_lon, end_lat, end_lon,
          start_time, end_time, distance, activity_type]

/-- `load_visit` (convert.py lines 61-85): `location` and `duration`
are obtained with plain subscripting, the leaf fields with
`.get(..., None)`.  Returns the single visit row. -/
def load_visit (timeline_obj : List (String × Json)) : Except PyErr Row := do
  let visit ← asObj (← dictIndex timeline_obj "placeVisit")
  let location ← asObj (← dictIndex visit "location")
  let location_lat := pyGet location "latitudeE7"
  let location_lon := pyGet location "longitudeE7"
  let place_id := pyGet location "placeId"
  let address := pyGet location "address"
  let name := pyGet location "name"
  let duration ← asObj (← dictIndex visit "duration")
  let start_time := pyGet duration "startTimestamp"
  let end_time := pyGet duration "endTimestamp"
  return [some (Json.str "visit"), location_lat, location_lon, place_id,
          address, name, start_time, end_time]

/-- Message of the `KeyError` raised when a record has more than one
top-level key (convert.py lines 91-96; whitespace normalised). -/
def keyCountMsg : String :=
  "Key number in a timeline object is expected to be 1, but there are more than 1 key in the timeline object."

/-- Message of the `KeyError` raised when the single key is neither
recognised one (convert.py lines 103-108; whitespace normalised). -/
def unexpectedKeyMsg : String :=
  "Unexpected key exists in the timeline object. Please contact to the developer."

/-- Body of the `try` block of `load_timeline_obj` (convert.py lines
90-108): reject records with more than one key, dispatch on the
recognised keys, reject anything else. -/
def load_timeline_obj_try (timeline_obj : Json) : Except PyErr Row := do
  let n ← pyLen timeline_obj
  if n > 1 then
    Except.error (PyErr.keyError keyCountMsg)
  else
    match timeline_obj with
    | Json.obj d =>
      if containsKey d "activitySegment" then load_activity d
      else if containsKey d "placeVisit" then load_visit d
      else Except.error (PyErr.keyError unexpectedKeyMsg)
    | _ => Except.error PyErr.typeError

/-- `load_timeline_obj` (convert.py lines 88-114): runs the body and
catches `KeyError` only, turning it into a printed diagnostic and
`sys.exit(1)`; other exceptions escape uncaught. -/
def load_timeline_obj (timeline_obj : Json) : Except RunFailure Row :=
  match load_timeline_obj_try timeline_obj with
  | Except.ok row => Except.ok row
  | Except.error (PyErr.keyError m) => Except.error (RunFailure.exit1 m)
  | Except.error PyErr.typeError => Except.error RunFailure.uncaught

/-! ## Aggregation (convert.py lines 117-136, 139-167)

`load_monthly_json` parses one file and splits its rows into the
activity and visit tables; `main` folds all files, sorts each table by
`start_time` and writes the two CSV files. -/

/-- Routing of one extracted row by its `timeline_type` cell
(convert.py lines 127-131): the `match` statement appends to the
activity or the visit table and silently ignores anything else. -/
def route (acc : List Row × List Row) (row : Row) : List Row × List Row :=
  match row.head? with
  | some (some (Json.str t)) =>
    if t == "activity" then (acc.fst ++ [row], acc.snd)
    else if t == "visit" then (acc.fst, acc.snd ++ [row])
    else acc
  | _ => acc

/-- The `for timeline_obj in location_history['timelineObjects']` loop
of `load_monthly_json` (convert.py lines 124-131): classification
failure aborts the whole run immediately. -/
def load_objs : List Json → (List Row × List Row) → Except RunFailure (List Row × List Row)
  | [], acc => Except.ok acc
  | o :: os, acc =>
    match load_timeline_obj o with
    | Except.error e => Except.error e
    | Except.ok row => load_objs os (route acc row)

/-- `load_monthly_json` (convert.py lines 117-136) on the parsed file
contents: `location_history['timelineObjects']` must exist and be a
sequence (any other shape raises an uncaught exception), then the rows
of the file are accumulated in encounter order. -/
def load_monthly_json (location_history : Json) : Except RunFailure (List Row × List Row) :=
  match location_history with
  | Json.obj d =>
    match dictFind d "timelineObjects" with
    | some (Json.arr objs) => load_objs objs ([], [])
    | some _ => Except.error RunFailure.uncaught
    | none => Except.error RunFailure.uncaught
  | _ => Except.error RunFailure.uncaught

/-- The per-file loop of `main` (convert.py lines 156-159): each
monthly table pair is concatenated onto the running tables. -/
def aggregate : List Json → (List Row × List Row) → Except RunFailure (List Row × List Row)
  | [], acc => Except.ok acc
  | f :: fs, acc =>
    match load_monthly_json f with
    | Except.error e => Except.error e
    | Except.ok md => aggregate fs (acc.fst ++ md.fst, acc.snd ++ md.snd)

/-! ## The sort (convert.py lines 161, 165)

`df.sort_values('start_time')` with the pandas defaults:
`ascending=True`, `na_position='last'`, `kind='quicksort'`.  pandas
`nargsort` splits the column into its non-NaN and NaN positions, argsorts
the non-NaN values with numpy and appends the NaN positions.  The numpy
default argsort for an object column is the generic indirect introsort
`npy_aquicksort` (numpy `npysort/quicksort.c.src`): median-of-3
quicksort partitioning down to segments of at most `SMALL_QUICKSORT + 1
= 16` elements, which are finished with a stable insertion sort, and a
heapsort fallback at extreme recursion depth.  The model below follows
that algorithm with one divergence: the depth-limited heapsort fallback
(which needs adversarial inputs far larger than anything proved about
here) is replaced by running out of fuel, which returns the segment
unsorted; the fuel is shown sufficient for every reachable call.
Comparison of two column values is Python `<`, which on strings is
lexicographic by code point; a comparison between values that are not
both strings raises `TypeError`, modelled conservatively by requiring
every non-null key to be a string before sorting. -/

/-- Lexicographic comparison of two character lists, by code point:
Python string `<`. -/
def charListLt : List Char → List Char → Bool
  | [], [] => false
  | [], _ :: _ => true
  | _ :: _, [] => false
  | a :: as, b :: bs =>
    if a < b then true else if b < a then false else charListLt as bs

/-- Python `s < t` on strings: lexicographic by code point (the
comparison numpy uses on an object column of strings). -/
def strLt (s t : String) : Bool := charListLt s.data t.data

/-- Value of an index into the key array (out-of-range defaults are
never reached in sorted calls). -/
def valOf (vals : List String) (i : Nat) : String :=
  vals.getD i ""

/-- Swap of two positions of an index list (`INTP_SWAP`); out-of-range
positions leave the list unchanged. -/
def lswap (l : List Nat) (i j : Nat) : List Nat :=
  if i < l.length ∧ j < l.length then
    (l.set i (l.getD j 0)).set j (l.getD i 0)
  else l

/-- Insertion of one index into a sorted prefix, scanning for the first
strictly greater value (the shifting loop of the insertion sort in
`npy_aquicksort`): the new index lands after every value less than or
equal to its own. -/
def orderedInsertIdx (vals : List String) (i : Nat) : List Nat → List Nat
  | [] => [i]
  | j :: l =>
    if strLt (valOf vals i) (valOf vals j) then i :: j :: l
    else j :: orderedInsertIdx vals i l

/-- The insertion sort used by `npy_aquicksort` on segments of at most
16 elements: indices are inserted left to right into a growing sorted
prefix. -/
def aInsertionSort (vals : List String) (l : List Nat) : List Nat :=
  l.foldl (fun acc i => orderedInsertIdx vals i acc) []

/-- numpy `SMALL_QUICKSORT` (npysort_common.h). -/
def SMALL_QUICKSORT : Nat := 15

/-- The ascending scan `do ++pi; while (v[*pi] < vp);` started at its
first candidate position: returns the first position at or after
`start` whose value is not below the pivot. -/
def scanUp (vals : List String) (vp : String) (l : List Nat) : Nat → Nat → Nat
  | start, 0 => start
  | start, fuel + 1 =>
    if strLt (valOf vals (l.getD start 0)) vp then scanUp vals vp l (start + 1) fuel
    else start

/-- The descending scan `do --pj; while (vp < v[*pj]);` started at its
first candidate position: returns the first position at or below
`start` whose value is not above the pivot. -/
def scanDown (vals : List String) (vp : String) (l : List Nat) : Nat → Nat → Nat
  | start, 0 => start
  | start, fuel + 1 =>
    if strLt vp (valOf vals (l.getD start 0)) then scanDown vals vp l (start - 1) fuel
    else start

/-- The partition exchange loop of `npy_aquicksort`: scan up from `pi`,
down from `pj`, stop when the scans cross, otherwise swap and
continue.  Returns the partitioned list and the crossing point. -/
def partLoop (vals : List String) (vp : String) : List Nat → Nat → Nat → Nat → List Nat × Nat
  | l, pi, _, 0 => (l, pi)
  | l, pi, pj, fuel + 1 =>
    let pi2 := scanUp vals vp l (pi + 1) l.length
    let pj2 := scanDown vals vp l (pj - 1) l.length
    if pj2 ≤ pi2 then (l, pi2)
    else partLoop vals vp (lswap l pi2 pj2) pi2 pj2 fuel

/-- One ordering swap of the median-of-3 phase:
`if (v[l[i]] < v[l[j]]) SWAP(l[i], l[j])`. -/
def condSwap (vals : List String) (l : List Nat) (i j : Nat) : List Nat :=
  if strLt (valOf vals (l.getD i 0)) (valOf vals (l.getD j 0)) then lswap l i j else l

/-- The median-of-3 pivot selection of one `npy_aquicksort` partition
step (local positions `pl = 0`, `pm = (length - 1) / 2`,
`pr = length - 1`): three conditional ordering swaps leaving
`v[l[0]] ≤ v[l[pm]] ≤ v[l[pr]]`. -/
def med3 (vals : List String) (l : List Nat) : List Nat :=
  let pr := l.length - 1
  let pm := pr / 2
  condSwap vals (condSwap vals (condSwap vals l pm 0) pr pm) pm 0

/-- One `npy_aquicksort` partition step on a whole segment: median-of-3
pivot selection with ordering swaps, pivot parked at `pr - 1`, exchange
loop, pivot swapped back to the crossing point.  Returns the reordered
segment and the pivot position. -/
def npyPartition (vals : List String) (l : List Nat) : List Nat × Nat :=
  let pr := l.length - 1
  let pm := pr / 2
  let l3 := med3 vals l
  let vp := valOf vals (l3.getD pm 0)
  let l4 := lswap l3 pm (pr - 1)
  let pit := partLoop vals vp l4 0 (pr - 1) l4.length
  (lswap pit.fst pit.snd (pr - 1), pit.snd)

/-- `npy_aquicksort` on one segment of index positions: segments of at
most 16 elements are insertion sorted, larger ones are partitioned and
the two sides sorted recursively.  `fuel` bounds the partition depth;
the initial fuel (the segment length) is sufficient because every
partition produces strictly shorter sides. -/
def npyQuickSeg (vals : List String) : Nat → List Nat → List Nat
  | fuel, l =>
    if l.length ≤ SMALL_QUICKSORT + 1 then aInsertionSort vals l
    else
      match fuel with
      | 0 => l
      | f + 1 =>
        let pt := npyPartition vals l
        npyQuickSeg vals f (pt.fst.take pt.snd) ++ [pt.fst.getD pt.snd 0]
          ++ npyQuickSeg vals f (pt.fst.drop (pt.snd + 1))

/-- numpy argsort of the non-NaN key values (`kind='quicksort'`):
the permutation of `0, ..., vals.length - 1` computed by
`npy_aquicksort`. -/
def npyArgsort (vals : List String) : List Nat :=
  npyQuickSeg vals vals.length (List.range vals.length)

/-- The split pandas `nargsort` performs on the key column: positions
with a non-NaN key paired with their value, in order, and the positions
with a NaN key, in order (`non_nan_idx` / `nan_idx`). -/
def splitKeys : Nat → List (Option String) → List (Nat × String) × List Nat
  | _, [] => ([], [])
  | i, none :: ks =>
    let rest := splitKeys (i + 1) ks
    (rest.fst, i :: rest.snd)
  | i, some s :: ks =>
    let rest := splitKeys (i + 1) ks
    ((i, s) :: rest.fst, rest.snd)

/-- pandas `nargsort` with the `sort_values` defaults (`ascending=True`,
`na_position='last'`): argsort the non-NaN values, map the result back
to column positions, append the NaN positions at the end. -/
def nargsort (keys : List (Option String)) : List Nat :=
  let sk := splitKeys 0 keys
  (npyArgsort (sk.fst.map Prod.snd)).map (fun j => (sk.fst.map Prod.fst).getD j 0)
    ++ sk.snd

/-- Sort key of one cell: Python `None` is NaN, a string is compared
lexicographically, and any other value would make numpy compare
objects of different types, a `TypeError` that escapes uncaught
(modelled conservatively: the whole sort faults). -/
def cellKey : Cell → Except RunFailure (Option String)
  | none => Except.ok none
  | some (Json.str s) => Except.ok (some s)
  | some _ => Except.error RunFailure.uncaught

/-- Key column of a table: the cell of every row at the key position. -/
def columnKeys (keyIdx : Nat) : List Row → Except RunFailure (List (Option String))
  | [] => Except.ok []
  | r :: rs =>
    match cellKey (r.getD keyIdx none) with
    | Except.error e => Except.error e
    | Except.ok k =>
      match columnKeys keyIdx rs with
      | Except.error e => Except.error e
      | Except.ok ks => Except.ok (k :: ks)

/-- `df.sort_values('start_time')` (convert.py lines 161 and 165) with
the pandas defaults, followed by `reset_index(drop=True)`: the rows
reordered by the `nargsort` permutation of the key column. -/
def sort_values (keyIdx : Nat) (rows : List Row) : Except RunFailure (List Row) :=
  match columnKeys keyIdx rows with
  | Except.error e => Except.error e
  | Except.ok keys => Except.ok ((nargsort keys).map (fun i => rows.getD i []))

/-! ## CSV output (convert.py lines 163 and 167)

`df.to_csv(path)` with the defaults: comma separated, a header line
whose leading index column has an empty name, one line per row led by
the row index, `None`/NaN cells empty, minimal quoting, every line
terminated by a newline. -/

mutual

/-- Python `repr` of a value stored inside a container cell (a close
rendering; no claim depends on it), mutually with its list forms. -/
def pyRepr : Json → String
  | Json.null => "None"
  | Json.bool b => if b then "True" else "False"
  | Json.num n => toString n
  | Json.str s => "\x27" ++ s ++ "\x27"
  | Json.arr l => "[" ++ String.intercalate ", " (pyReprList l) ++ "]"
  | Json.obj d => "\x7b" ++ String.intercalate ", " (pyReprObj d) ++ "\x7d"

/-- Renderings of the elements of a list value. -/
def pyReprList : List Json → List String
  | [] => []
  | x :: xs => pyRepr x :: pyReprList xs

/-- Renderings of the entries of an object value. -/
def pyReprObj : List (String × Json) → List String
  | [] => []
  | kv :: kvs => ("\x27" ++ kv.fst ++ "\x27: " ++ pyRepr kv.snd) :: pyReprObj kvs

end

/-- CSV quoting of a field (csv `QUOTE_MINIMAL`): wrap in double quotes
with inner quotes doubled. -/
def csvQuote (s : String) : String :=
  "\x22" ++ (s.replace "\x22" "\x22\x22") ++ "\x22"

/-- A CSV field: quoted exactly when it contains a separator, a quote
or a line break. -/
def csvField (s : String) : String :=
  if s.data.any (fun c => c == ',' || c == '\x22' || c == '\n' || c == '\r') then csvQuote s
  else s

/-- Rendering of one cell: `None`/NaN prints as the empty field, a
string as itself (quoted when needed), a number in decimal, a bool in
Python style, containers with their Python repr. -/
def cellToCsv : Cell → String
  | none => ""
  | some (Json.str s) => csvField s
  | some (Json.num n) => toString n
  | some (Json.bool b) => if b then "True" else "False"
  | some Json.null => ""
  | some v => csvField (pyRepr v)

/-- The header line: the index column has an empty name, then the
column names. -/
def csvHeader (cols : List String) : String :=
  "," ++ String.intercalate "," (cols.map csvField)

/-- One data line: the row index, then every cell. -/
def csvLine (i : Nat) (row : Row) : String :=
  toString i ++ "," ++ String.intercalate "," (row.map cellToCsv)

/-- The data lines, indices counting up from `i`. -/
def csvBody (i : Nat) : List Row → List String
  | [] => []
  | r :: rs => csvLine i r :: csvBody (i + 1) rs

/-- All lines of one CSV file: header then the rows indexed from 0
(after `reset_index(drop=True)` the index is the post-sort row
order). -/
def csvLines (cols : List String) (rows : List Row) : List String :=
  csvHeader cols :: csvBody 0 rows

/-- `df.to_csv`: every line, each terminated by a newline. -/
def to_csv (cols : List String) (rows : List Row) : String :=
  String.join ((csvLines cols rows).map (fun ln => ln ++ "\n"))

/-! ## The whole run (convert.py lines 139-167) -/

/-- The two tables `main` holds right before writing them: every file
aggregated in order, then each table sorted by its `start_time`
column.  An error anywhere aborts the run with no output. -/
def main_tables (files : List Json) : Except RunFailure (List Row × List Row) :=
  match aggregate files ([], []) with
  | Except.error e => Except.error e
  | Except.ok acc =>
    match sort_values (ACTIVITY_COLS.indexOf "start_time") acc.fst with
    | Except.error e => Except.error e
    | Except.ok aSorted =>
      match sort_values (VISIT_COLS.indexOf "start_time") acc.snd with
      | Except.error e => Except.error e
      | Except.ok vSorted => Except.ok (aSorted, vSorted)

/-- `main` on the parsed contents of the input files, returning the
bytes of `activity.csv` and `visit.csv`.  On any failure the run exits
non-zero with neither file written. -/
def main_run (files : List Json) : Except RunFailure (String × String) :=
  match main_tables files with
  | Except.error e => Except.error e
  | Except.ok tables =>
    Except.ok (to_csv ACTIVITY_COLS tables.fst, to_csv VISIT_COLS tables.snd)

/-! ## Concrete fixtures and statement helpers -/

/-- The timeline records a parsed monthly file holds, when it is
well-shaped; an ill-shaped file makes the run fail anyway. -/
def objs_of_file (f : Json) : List Json :=
  match f with
  | Json.obj d =>
    match dictFind d "timelineObjects" with
    | some (Json.arr objs) => objs
    | _ => []
  | _ => []

/-- A minimal activity record with the given start timestamp. -/
def actRecOf (t : String) : Json :=
  Json.obj [("activitySegment", Json.obj
    [("startLocation", Json.obj []), ("endLocation", Json.obj []),
     ("duration", Json.obj [("startTimestamp", Json.str t)])])]

/-- A minimal visit record with the given start timestamp. -/
def visRecOf (t : String) : Json :=
  Json.obj [("placeVisit", Json.obj
    [("location", Json.obj []),
     ("duration", Json.obj [("startTimestamp", Json.str t)])])]

/-- First monthly file of the end-to-end scenario: one activity
(start 2021-01-02) and one visit (start 2021-01-01). -/
def c6_fileA : Json :=
  Json.obj [("timelineObjects", Json.arr
    [actRecOf "2021-01-02T00:00:00Z", visRecOf "2021-01-01T00:00:00Z"])]

/-- Second monthly file of the end-to-end scenario: one activity
(start 2020-12-01). -/
def c6_fileB : Json :=
  Json.obj [("timelineObjects", Json.arr [actRecOf "2020-12-01T00:00:00Z"])]

/-- The activity row the extractor produces for `actRecOf t`. -/
def c6_actRow (t : String) : Row :=
  [some (Json.str "activity"), none, none, none, none, some (Json.str t),
   none, none, none]

/-- The visit row the extractor produces for `visRecOf t`. -/
def c6_visRow (t : String) : Row :=
  [some (Json.str "visit"), none, none, none, none, none, some (Json.str t), none]

/-- The string held by a cell, when it holds one (used to state what
the sort compares). -/
def cellStr : Cell → Option String
  | some (Json.str s) => some s
  | _ => none

/-- An activity row with the given start time and distance. -/
def actRowOf (t : String) (d : Int) : Row :=
  [some (Json.str "activity"), none, none, none, none, some (Json.str t), none,
   some (Json.num d), none]

/-- An activity row with no start time and no distance. -/
def actRowNull : Row :=
  [some (Json.str "activity"), none, none, none, none, none, none, none, none]

/-- The tie-breaking scenario record: every record shares the start
time `2021-01-01T00:00:00Z` and is identified by its distance. -/
def c4_rec (d : Nat) : Json :=
  Json.obj [("activitySegment", Json.obj
    [("startLocation", Json.obj []), ("endLocation", Json.obj []),
     ("duration", Json.obj [("startTimestamp", Json.str "2021-01-01T00:00:00Z")]),
     ("distance", Json.num (Int.ofNat d))])]

/-- The row extracted from `c4_rec d`. -/
def c4_row (d : Nat) : Row :=
  actRowOf "2021-01-01T00:00:00Z" (Int.ofNat d)

/-- A monthly file holding the 17 tied records, distances 0 to 16 in
encounter order. -/
def c4_file : Json :=
  Json.obj [("timelineObjects", Json.arr ((List.range 17).map (fun d => c4_rec d)))]

/-! ## Claims about the classifier / extractor -/

/-- Helper: evaluation of `load_activity` on a one-key record whose
segment carries its three required sub-mappings. -/
lemma load_activity_eq (seg sl el du : List (String × Json))
    (hsl : dictFind seg "startLocation" = some (Json.obj sl))
    (hel : dictFind seg "endLocation" = some (Json.obj el))
    (hdu : dictFind seg "duration" = some (Json.obj du)) :
    load_activity [("activitySegment", Json.obj seg)] =
      Except.ok [some (Json.str "activity"),
        pyGet sl "latitudeE7", pyGet sl "longitudeE7",
        pyGet el "latitudeE7", pyGet el "longitudeE7",
        pyGet du "startTimestamp", pyGet du "endTimestamp",
        pyGet seg "distance", pyGet seg "activityType"] := by
  unfold load_activity
  simp only [dictFind] at hsl hel hdu
  simp [dictIndex, dictFind, asObj, hsl, hel, hdu, bind, Except.bind, Functor.map,
    Except.map, pure, Except.pure]

/-- C1.  For every record whose single top-level key is
`activitySegment`, provided the segment carries `startLocation`,
`endLocation` and `duration` sub-mappings, `load_timeline_obj`
produces the activity row: `timeline_type` is the string `activity`,
the remaining 8 cells are exactly the `.get` extractions of the
specified nested fields, and every absent leaf field yields `none`
(null).  When one of the three sub-mappings is absent the extractor
raises `KeyError` instead (see the counterexample). -/
theorem c1_activity_extraction (seg sl el du : List (String × Json))
    (hsl : dictFind seg "startLocation" = some (Json.obj sl))
    (hel : dictFind seg "endLocation" = some (Json.obj el))
    (hdu : dictFind seg "duration" = some (Json.obj du)) :
    load_timeline_obj (Json.obj [("activitySegment", Json.obj seg)]) =
      Except.ok [some (Json.str "activity"),
        pyGet sl "latitudeE7", pyGet sl "longitudeE7",
        pyGet el "latitudeE7", pyGet el "longitudeE7",
        pyGet du "startTimestamp", pyGet du "endTimestamp",
        pyGet seg "distance", pyGet seg "activityType"] := by
  unfold load_timeline_obj load_timeline_obj_try
  simp [pyLen, containsKey, load_activity_eq seg sl el du hsl hel hdu,
    bind, Except.bind, pure, Except.pure]

/-- C1 witness: a concrete activity record with empty locations, a
start timestamp only, and no distance or activity type: every absent
leaf is null and the row has its 9 cells. -/
theorem c1_witness :
    load_timeline_obj (Json.obj [("activitySegment", Json.obj
        [("startLocation", Json.obj []), ("endLocation", Json.obj []),
         ("duration", Json.obj [("startTimestamp", Json.str "2021-01-02T00:00:00Z")])])]) =
      Except.ok [some (Json.str "activity"), none, none, none, none,
        some (Json.str "2021-01-02T00:00:00Z"), none, none, none] := by
  have h := c1_activity_extraction
    [("startLocation", Json.obj []), ("endLocation", Json.obj []),
     ("duration", Json.obj [("startTimestamp", Json.str "2021-01-02T00:00:00Z")])]
    [] [] [("startTimestamp", Json.str "2021-01-02T00:00:00Z")] rfl rfl rfl
  exact h

/-- C1 counterexample: the claim says an absent `startLocation`,
`endLocation` or `duration` sub-mapping is mapped to null rather than
causing a failure; in fact `load_activity` subscripts them directly,
so the record `{"activitySegment": {}}` fails with a `KeyError` on
`startLocation` (and a segment missing only `duration` fails on
`duration`), terminating the run instead of producing a row. -/
theorem c1_counterexample :
    load_timeline_obj (Json.obj [("activitySegment", Json.obj [])]) =
        Except.error (RunFailure.exit1 "startLocation") ∧
      (∀ row, load_timeline_obj (Json.obj [("activitySegment", Json.obj [])]) ≠
        Except.ok row) ∧
      load_timeline_obj (Json.obj [("activitySegment", Json.obj
          [("startLocation", Json.obj []), ("endLocation", Json.obj [])])]) =
        Except.error (RunFailure.exit1 "duration") := by
  refine ⟨rfl, ?_, rfl⟩
  intro row h
  simp [load_timeline_obj, load_timeline_obj_try, pyLen, containsKey, load_activity,
    dictIndex, dictFind, asObj, bind, Except.bind, Functor.map, Except.map] at h

/-- Helper: evaluation of `load_visit` on a one-key record whose visit
carries its `location` and `duration` sub-mappings. -/
lemma load_visit_eq (vis loc du : List (String × Json))
    (hloc : dictFind vis "location" = some (Json.obj loc))
    (hdu : dictFind vis "duration" = some (Json.obj du)) :
    load_visit [("placeVisit", Json.obj vis)] =
      Except.ok [some (Json.str "visit"),
        pyGet loc "latitudeE7", pyGet loc "longitudeE7",
        pyGet loc "placeId", pyGet loc "address", pyGet loc "name",
        pyGet du "startTimestamp", pyGet du "endTimestamp"] := by
  unfold load_visit
  simp only [dictFind] at hloc hdu
  simp [dictIndex, dictFind, asObj, hloc, hdu, bind, Except.bind, Functor.map,
    Except.map, pure, Except.pure]

/-- C3.  For every record whose single top-level key is `placeVisit`,
provided the visit carries `location` and `duration` sub-mappings,
`load_timeline_obj` produces the visit row: `timeline_type` is the
string `visit`, the remaining 7 cells are exactly the `.get`
extractions of the specified nested fields, and every absent leaf
field yields `none` (null).  When `location` or `duration` is absent
the extractor raises `KeyError` instead (see the counterexample). -/
theorem c3_visit_extraction (vis loc du : List (String × Json))
    (hloc : dictFind vis "location" = some (Json.obj loc))
    (hdu : dictFind vis "duration" = some (Json.obj du)) :
    load_timeline_obj (Json.obj [("placeVisit", Json.obj vis)]) =
      Except.ok [some (Json.str "visit"),
        pyGet loc "latitudeE7", pyGet loc "longitudeE7",
        pyGet loc "placeId", pyGet loc "address", pyGet loc "name",
        pyGet du "startTimestamp", pyGet du "endTimestamp"] := by
  unfold load_timeline_obj load_timeline_obj_try
  simp [pyLen, containsKey, load_visit_eq vis loc du hloc hdu,
    bind, Except.bind, pure, Except.pure]

/-- C3 witness: a concrete visit record with an empty location and a
start timestamp only: every absent leaf is null and the row has its 8
cells. -/
theorem c3_witness :
    load_timeline_obj (Json.obj [("placeVisit", Json.obj
        [("location", Json.obj []),
         ("duration", Json.obj [("startTimestamp", Json.str "2021-01-01T00:00:00Z")])])]) =
      Except.ok [some (Json.str "visit"), none, none, none, none, none,
        some (Json.str "2021-01-01T00:00:00Z"), none] := by
  have h := c3_visit_extraction
    [("location", Json.obj []),
     ("duration", Json.obj [("startTimestamp", Json.str "2021-01-01T00:00:00Z")])]
    [] [("startTimestamp", Json.str "2021-01-01T00:00:00Z")] rfl rfl
  exact h

/-- C3 counterexample: the claim says an absent `location` or
`duration` sub-mapping is mapped to null rather than causing a
failure; in fact `load_visit` subscripts them directly, so the record
`{"placeVisit": {}}` fails with a `KeyError` on `location` (and a
visit missing only `duration` fails on `duration`), terminating the
run instead of producing a row. -/
theorem c3_counterexample :
    load_timeline_obj (Json.obj [("placeVisit", Json.obj [])]) =
        Except.error (RunFailure.exit1 "location") ∧
      (∀ row, load_timeline_obj (Json.obj [("placeVisit", Json.obj [])]) ≠
        Except.ok row) ∧
      load_timeline_obj (Json.obj [("placeVisit", Json.obj
          [("location", Json.obj [])])]) =
        Except.error (RunFailure.exit1 "duration") := by
  refine ⟨rfl, ?_, rfl⟩
  intro row h
  simp [load_timeline_obj, load_timeline_obj_try, pyLen, containsKey, load_visit,
    dictIndex, dictFind, asObj, bind, Except.bind, Functor.map, Except.map] at h

/-- C2.  Every raw record with zero top-level keys, with two or more
top-level keys, or with exactly one top-level key that is neither
`activitySegment` nor `placeVisit`, is rejected by the classifier with
a caught `KeyError` (the single invalid-shape error kind, leading to
`sys.exit(1)`) carrying one of the two diagnostic messages — no record
is produced.  Keys are assumed distinct, as `json.load` guarantees. -/
theorem c2_invalid_shape_rejected (d : List (String × Json))
    (hnd : (d.map Prod.fst).Nodup)
    (h : d.length = 0 ∨ 2 ≤ d.length ∨
      (d.length = 1 ∧ ∀ kv ∈ d, kv.fst ≠ "activitySegment" ∧ kv.fst ≠ "placeVisit")) :
    load_timeline_obj (Json.obj d) = Except.error (RunFailure.exit1 keyCountMsg) ∨
      load_timeline_obj (Json.obj d) = Except.error (RunFailure.exit1 unexpectedKeyMsg) := by
  rcases h with h0 | h2 | ⟨h1, hk⟩
  · right
    rw [List.length_eq_zero] at h0
    subst h0
    rfl
  · left
    have hgt : 1 < d.length := h2
    simp [load_timeline_obj, load_timeline_obj_try, pyLen, bind, Except.bind, hgt]
  · right
    rw [List.length_eq_one] at h1
    obtain ⟨kv, rfl⟩ := h1
    obtain ⟨ha, hp⟩ := hk kv (List.mem_singleton_self kv)
    simp [load_timeline_obj, load_timeline_obj_try, pyLen, containsKey,
      bind, Except.bind, ha, hp]

/-- C2 witness: the concrete one-key record `{"foo": null}` is
rejected with the unexpected-key diagnostic. -/
theorem c2_witness :
    load_timeline_obj (Json.obj [("foo", Json.null)]) =
        Except.error (RunFailure.exit1 keyCountMsg) ∨
      load_timeline_obj (Json.obj [("foo", Json.null)]) =
        Except.error (RunFailure.exit1 unexpectedKeyMsg) := by
  refine c2_invalid_shape_rejected [("foo", Json.null)] (by simp) ?_
  right; right
  refine ⟨rfl, ?_⟩
  intro kv hkv
  rw [List.mem_singleton] at hkv
  subst hkv
  exact ⟨by decide, by decide⟩

/-- C9.  A record with zero top-level keys is rejected through the
unrecognized-key branch, not the key-count branch: the key-count check
`len(timeline_obj) > 1` does not fire at 0 keys, so the empty record
gets the `Unexpected key exists` diagnostic, which differs from the
key-count diagnostic; the key-count diagnostic fires for a two-key
record. -/
theorem c9_empty_record_unexpected_key_branch :
    load_timeline_obj (Json.obj []) = Except.error (RunFailure.exit1 unexpectedKeyMsg) ∧
      unexpectedKeyMsg ≠ keyCountMsg ∧
      load_timeline_obj (Json.obj [("activitySegment", Json.obj []), ("extra", Json.null)]) =
        Except.error (RunFailure.exit1 keyCountMsg) := by
  refine ⟨rfl, ?_, rfl⟩
  decide

/-! ## Claims about the aggregator -/

/-- Helper: a classification failure anywhere in the record loop
aborts the file load with that failure. -/
lemma load_objs_error (os : List Json) :
    ∀ acc, (∃ o ∈ os, ∃ e, load_timeline_obj o = Except.error e) →
      ∃ e, load_objs os acc = Except.error e := by
  induction os with
  | nil => intro acc h; simp at h
  | cons o os ih =>
    intro acc h
    cases hlo : load_timeline_obj o with
    | error e => exact ⟨e, by simp [load_objs, hlo]⟩
    | ok row =>
      obtain ⟨f, hf, e, he⟩ := h
      rcases List.mem_cons.mp hf with rfl | hmem
      · rw [hlo] at he; cases he
      · obtain ⟨e2, he2⟩ := ih (route acc row) ⟨f, hmem, e, he⟩
        exact ⟨e2, by simp [load_objs, hlo, he2]⟩

/-- Helper: a classification failure on any record of a file makes
`load_monthly_json` fail. -/
lemma load_monthly_json_error (f : Json)
    (h : ∃ o ∈ objs_of_file f, ∃ e, load_timeline_obj o = Except.error e) :
    ∃ e, load_monthly_json f = Except.error e := by
  cases f with
  | obj d =>
    cases hfind : dictFind d "timelineObjects" with
    | none => exact ⟨RunFailure.uncaught, by simp [load_monthly_json, hfind]⟩
    | some v =>
      cases v with
      | arr objs =>
        have hobjs : objs_of_file (Json.obj d) = objs := by
          simp [objs_of_file, hfind]
        rw [hobjs] at h
        obtain ⟨e, he⟩ := load_objs_error objs ([], []) h
        exact ⟨e, by simp [load_monthly_json, hfind, he]⟩
      | null => exact ⟨RunFailure.uncaught, by simp [load_monthly_json, hfind]⟩
      | bool b => exact ⟨RunFailure.uncaught, by simp [load_monthly_json, hfind]⟩
      | num n => exact ⟨RunFailure.uncaught, by simp [load_monthly_json, hfind]⟩
      | str s => exact ⟨RunFailure.uncaught, by simp [load_monthly_json, hfind]⟩
      | obj d2 => exact ⟨RunFailure.uncaught, by simp [load_monthly_json, hfind]⟩
  | null => exact ⟨RunFailure.uncaught, rfl⟩
  | bool b => exact ⟨RunFailure.uncaught, rfl⟩
  | num n => exact ⟨RunFailure.uncaught, rfl⟩
  | str s => exact ⟨RunFailure.uncaught, rfl⟩
  | arr l => exact ⟨RunFailure.uncaught, rfl⟩

/-- Helper: a failing file anywhere in the input list makes the
aggregation loop fail. -/
lemma aggregate_error (files : List Json) :
    ∀ acc, (∃ f ∈ files, ∃ e, load_monthly_json f = Except.error e) →
      ∃ e, aggregate files acc = Except.error e := by
  induction files with
  | nil => intro acc h; simp at h
  | cons g fs ih =>
    intro acc h
    cases hg : load_monthly_json g with
    | error e => exact ⟨e, by simp [aggregate, hg]⟩
    | ok md =>
      obtain ⟨f, hf, e, he⟩ := h
      rcases List.mem_cons.mp hf with rfl | hmem
      · rw [hg] at he; cases he
      · obtain ⟨e2, he2⟩ := ih (acc.fst ++ md.fst, acc.snd ++ md.snd) ⟨f, hmem, e, he⟩
        exact ⟨e2, by simp [aggregate, hg, he2]⟩

/-- C5.  When classification fails on any record of any input file the
whole run terminates with that failure (a printed diagnostic and a
non-zero exit status) and produces no output: neither the
`activity.csv` nor the `visit.csv` bytes exist, including rows
aggregated from files processed before the failing record. -/
theorem c5_fail_fast_no_output (files : List Json)
    (h : ∃ f ∈ files, ∃ o ∈ objs_of_file f, ∃ e, load_timeline_obj o = Except.error e) :
    (∃ e, main_run files = Except.error e) ∧
      ∀ out, main_run files ≠ Except.ok out := by
  obtain ⟨f, hf, ho⟩ := h
  obtain ⟨e, he⟩ := aggregate_error files ([], []) ⟨f, hf, load_monthly_json_error f ho⟩
  refine ⟨⟨e, ?_⟩, ?_⟩
  · simp [main_run, main_tables, he]
  · intro out
    simp [main_run, main_tables, he]

/-- C5 witness: a two-file input whose second file holds an invalid
record after a valid first file; the run fails and yields no output. -/
theorem c5_witness :
    (∃ e, main_run
        [Json.obj [("timelineObjects", Json.arr
           [Json.obj [("placeVisit", Json.obj [("location", Json.obj []),
              ("duration", Json.obj [])])]])],
         Json.obj [("timelineObjects", Json.arr [Json.obj []])]] = Except.error e) ∧
      ∀ out, main_run
        [Json.obj [("timelineObjects", Json.arr
           [Json.obj [("placeVisit", Json.obj [("location", Json.obj []),
              ("duration", Json.obj [])])]])],
         Json.obj [("timelineObjects", Json.arr [Json.obj []])]] ≠ Except.ok out := by
  apply c5_fail_fast_no_output
  refine ⟨Json.obj [("timelineObjects", Json.arr [Json.obj []])], by simp, Json.obj [], by simp [objs_of_file, dictFind], RunFailure.exit1 unexpectedKeyMsg, rfl⟩

/-- C6.  End-to-end: on the directory holding the two monthly files
(in either enumeration order) the converter produces an activity table
of exactly 2 rows sorted [2020-12-01, 2021-01-02] and a visit table of
exactly 1 row [2021-01-01], and writes them as `activity.csv` (3
lines: header plus 2 rows) and `visit.csv` (2 lines: header plus 1
row). -/
theorem c6_end_to_end :
    main_tables [c6_fileA, c6_fileB] =
        Except.ok ([c6_actRow "2020-12-01T00:00:00Z", c6_actRow "2021-01-02T00:00:00Z"],
                   [c6_visRow "2021-01-01T00:00:00Z"]) ∧
      main_tables [c6_fileB, c6_fileA] =
        Except.ok ([c6_actRow "2020-12-01T00:00:00Z", c6_actRow "2021-01-02T00:00:00Z"],
                   [c6_visRow "2021-01-01T00:00:00Z"]) ∧
      main_run [c6_fileA, c6_fileB] =
        Except.ok
          (",timeline_type,start_latitude,start_longitude,end_latitude,end_longitude,start_time,end_time,distance,activity_type\n0,activity,,,,,2020-12-01T00:00:00Z,,,\n1,activity,,,,,2021-01-02T00:00:00Z,,,\n",
           ",timeline_type,location_latitude,location_longitude,place_id,address,name,start_time,end_time\n0,visit,,,,,,2021-01-01T00:00:00Z,\n") ∧
      (csvLines ACTIVITY_COLS
        [c6_actRow "2020-12-01T00:00:00Z", c6_actRow "2021-01-02T00:00:00Z"]).length = 3 ∧
      (csvLines VISIT_COLS [c6_visRow "2021-01-01T00:00:00Z"]).length = 2 := by
  exact ⟨rfl, rfl, rfl, rfl, rfl⟩

/-- C8.  The converter is deterministic: its output is a function of
the input directory contents alone (the parsed files in enumeration
order), so two runs on the same contents produce byte-identical
`activity.csv` and `visit.csv` strings. -/
theorem c8_deterministic (files1 files2 : List Json) (h : files1 = files2) :
    main_run files1 = main_run files2 := by
  rw [h]

/-- C8 witness: two runs on the end-to-end input agree (and both
produce output). -/
theorem c8_witness :
    main_run [c6_fileA, c6_fileB] = main_run [c6_fileA, c6_fileB] ∧
      ∃ out, main_run [c6_fileA, c6_fileB] = Except.ok out := by
  refine ⟨c8_deterministic [c6_fileA, c6_fileB] [c6_fileA, c6_fileB] rfl, ?_⟩
  exact ⟨_, rfl⟩

/-! ## Claim about the output shape -/

/-- Helper: `csvBody` produces one line per row. -/
lemma csvBody_length (rows : List Row) : ∀ i, (csvBody i rows).length = rows.length := by
  induction rows with
  | nil => intro i; rfl
  | cons r rs ih => intro i; simp [csvBody, ih]

/-- Helper: the j-th line of `csvBody i rows` is the line of the j-th
row, indexed `i + j`. -/
lemma csvBody_getD (rows : List Row) : ∀ i j, j < rows.length →
    (csvBody i rows).getD j "" = csvLine (i + j) (rows.getD j []) := by
  induction rows with
  | nil => intro i j hj; simp at hj
  | cons r rs ih =>
    intro i j hj
    cases j with
    | zero => simp [csvBody]
    | succ j2 =>
      have hj2 : j2 < rs.length := by simpa using hj
      have := ih (i + 1) j2 hj2
      simp only [csvBody, List.getD_cons_succ, List.length_cons] at this ⊢
      rw [this]
      congr 1
      omega

/-- C7.  Every successful run writes exactly the two artifacts built
from the sorted tables; each artifact's first line is the exact header
(a leading unnamed index column, then the specified column names in
the specified order), there is exactly one further line per row, and
the line of the i-th post-sort row starts with the row index `i`
(0, 1, 2, ...). -/
theorem c7_output_columns (files : List Json) (A V : List Row)
    (h : main_tables files = Except.ok (A, V)) :
    main_run files = Except.ok (to_csv ACTIVITY_COLS A, to_csv VISIT_COLS V) ∧
      (csvLines ACTIVITY_COLS A).headD "" =
        ",timeline_type,start_latitude,start_longitude,end_latitude,end_longitude,start_time,end_time,distance,activity_type" ∧
      (csvLines VISIT_COLS V).headD "" =
        ",timeline_type,location_latitude,location_longitude,place_id,address,name,start_time,end_time" ∧
      (csvLines ACTIVITY_COLS A).length = A.length + 1 ∧
      (csvLines VISIT_COLS V).length = V.length + 1 ∧
      (∀ i, i < A.length → ∃ rest,
        (csvLines ACTIVITY_COLS A).getD (i + 1) "" = toString i ++ "," ++ rest) ∧
      (∀ i, i < V.length → ∃ rest,
        (csvLines VISIT_COLS V).getD (i + 1) "" = toString i ++ "," ++ rest) := by
  refine ⟨by simp [main_run, h], rfl, rfl, ?_, ?_, ?_, ?_⟩
  · simp [csvLines, csvBody_length]
  · simp [csvLines, csvBody_length]
  · intro i hi
    refine ⟨String.intercalate "," ((A.getD i []).map cellToCsv), ?_⟩
    have := csvBody_getD A 0 i hi
    simp only [csvLines, List.getD_cons_succ]
    rw [this]
    simp [csvLine]
  · intro i hi
    refine ⟨String.intercalate "," ((V.getD i []).map cellToCsv), ?_⟩
    have := csvBody_getD V 0 i hi
    simp only [csvLines, List.getD_cons_succ]
    rw [this]
    simp [csvLine]

/-- C7 witness: the end-to-end input has its header lines, 2 activity
data lines led by 0 and 1, and 1 visit data line led by 0. -/
theorem c7_witness :
    main_run [c6_fileA, c6_fileB] =
        Except.ok
          (to_csv ACTIVITY_COLS
            [c6_actRow "2020-12-01T00:00:00Z", c6_actRow "2021-01-02T00:00:00Z"],
           to_csv VISIT_COLS [c6_visRow "2021-01-01T00:00:00Z"]) ∧
      (csvLines ACTIVITY_COLS
          [c6_actRow "2020-12-01T00:00:00Z", c6_actRow "2021-01-02T00:00:00Z"]).headD "" =
        ",timeline_type,start_latitude,start_longitude,end_latitude,end_longitude,start_time,end_time,distance,activity_type" ∧
      (csvLines VISIT_COLS [c6_visRow "2021-01-01T00:00:00Z"]).headD "" =
        ",timeline_type,location_latitude,location_longitude,place_id,address,name,start_time,end_time" ∧
      (csvLines ACTIVITY_COLS
          [c6_actRow "2020-12-01T00:00:00Z", c6_actRow "2021-01-02T00:00:00Z"]).length = 2 + 1 ∧
      (csvLines VISIT_COLS [c6_visRow "2021-01-01T00:00:00Z"]).length = 1 + 1 ∧
      (∀ i, i < 2 → ∃ rest,
        (csvLines ACTIVITY_COLS
          [c6_actRow "2020-12-01T00:00:00Z", c6_actRow "2021-01-02T00:00:00Z"]).getD (i + 1) "" =
          toString i ++ "," ++ rest) ∧
      (∀ i, i < 1 → ∃ rest,
        (csvLines VISIT_COLS [c6_visRow "2021-01-01T00:00:00Z"]).getD (i + 1) "" =
          toString i ++ "," ++ rest) := by
  exact c7_output_columns [c6_fileA, c6_fileB]
    [c6_actRow "2020-12-01T00:00:00Z", c6_actRow "2021-01-02T00:00:00Z"]
    [c6_visRow "2021-01-01T00:00:00Z"] rfl

/-! ## The comparison and the insertion sort -/

/-- Helper: `charListLt` decides the lexicographic order on character
lists. -/
lemma charListLt_iff : ∀ as bs : List Char, charListLt as bs = true ↔ as < bs := by
  intro as
  induction as with
  | nil =>
    intro bs
    cases bs with
    | nil =>
      simp only [charListLt, Bool.false_eq_true, false_iff]
      intro h
      cases h
    | cons b bs2 =>
      simp only [charListLt, true_iff]
      exact List.Lex.nil
  | cons a as2 ih =>
    intro bs
    cases bs with
    | nil =>
      simp only [charListLt, Bool.false_eq_true, false_iff]
      intro h
      cases h
    | cons b bs2 =>
      simp only [charListLt]
      by_cases hab : a < b
      · simp only [hab, if_true, true_iff]
        exact List.Lex.rel hab
      · by_cases hba : b < a
        · simp only [hab, if_false, hba, if_true, Bool.false_eq_true, false_iff]
          intro h
          cases h with
          | cons h2 => exact (lt_irrefl a) hba
          | rel h2 => exact hab h2
        · have heq : a = b := le_antisymm (not_lt.mp hba) (not_lt.mp hab)
          subst heq
          simp only [hab, if_false, ih bs2]
          constructor
          · intro h
            exact List.Lex.cons h
          · intro h
            cases h with
            | cons h2 => exact h2
            | rel h2 => exact absurd h2 (lt_irrefl a)

/-- Helper: `strLt` decides the lexicographic string order. -/
lemma strLt_iff (s t : String) : strLt s t = true ↔ s < t := by
  rw [strLt, charListLt_iff]
  exact Iff.symm String.lt_iff_toList_lt

/-- Helper: `strLt` as a false statement decides the reverse order. -/
lemma strLt_eq_false_iff (s t : String) : strLt s t = false ↔ t ≤ s := by
  constructor
  · intro h
    by_contra hc
    rw [not_le, ← strLt_iff] at hc
    rw [h] at hc
    exact Bool.false_ne_true hc
  · intro h
    cases hst : strLt s t with
    | false => rfl
    | true =>
      rw [strLt_iff] at hst
      exact absurd h (not_le.mpr hst)

/-- Helper: membership in an `orderedInsertIdx` result. -/
lemma orderedInsertIdx_mem (vals : List String) (i : Nat) :
    ∀ l x, x ∈ orderedInsertIdx vals i l ↔ x = i ∨ x ∈ l := by
  intro l
  induction l with
  | nil => intro x; simp [orderedInsertIdx]
  | cons j l2 ih =>
    intro x
    by_cases h : strLt (valOf vals i) (valOf vals j)
    · simp [orderedInsertIdx, h]
    · simp [orderedInsertIdx, h, ih]
      tauto

/-- Helper: `orderedInsertIdx` preserves sortedness by value. -/
lemma orderedInsertIdx_sorted (vals : List String) (i : Nat) :
    ∀ l, List.Sorted (fun a b => valOf vals a ≤ valOf vals b) l →
      List.Sorted (fun a b => valOf vals a ≤ valOf vals b) (orderedInsertIdx vals i l) := by
  intro l
  induction l with
  | nil => intro _; simp [orderedInsertIdx]
  | cons j l2 ih =>
    intro hs
    rw [List.sorted_cons] at hs
    obtain ⟨hj, hs2⟩ := hs
    by_cases h : strLt (valOf vals i) (valOf vals j)
    · rw [orderedInsertIdx, if_pos h]
      rw [List.sorted_cons]
      refine ⟨?_, List.sorted_cons.mpr ⟨hj, hs2⟩⟩
      intro b hb
      rw [strLt_iff] at h
      rcases List.mem_cons.mp hb with rfl | hb2
      · exact le_of_lt h
      · exact le_trans (le_of_lt h) (hj b hb2)
    · rw [orderedInsertIdx, if_neg h]
      rw [List.sorted_cons]
      constructor
      · intro b hb
        rw [orderedInsertIdx_mem] at hb
        rw [Bool.not_eq_true] at h
        rcases hb with rfl | hb2
        · exact (strLt_eq_false_iff (valOf vals b) (valOf vals j)).mp h
        · exact hj b hb2
      · exact ih hs2

/-- Helper: inserting an index larger than everything present keeps the
stability order (equal values listed by increasing index). -/
lemma orderedInsertIdx_stable (vals : List String) (i : Nat) :
    ∀ l, List.Sorted (fun a b => valOf vals a ≤ valOf vals b) l →
      l.Pairwise (fun a b => valOf vals a = valOf vals b → a < b) →
      (∀ x ∈ l, x < i) →
      (orderedInsertIdx vals i l).Pairwise
        (fun a b => valOf vals a = valOf vals b → a < b) := by
  intro l
  induction l with
  | nil => intro _ _ _; simp [orderedInsertIdx]
  | cons j l2 ih =>
    intro hs hp hlt
    rw [List.sorted_cons] at hs
    obtain ⟨hj, hs2⟩ := hs
    rw [List.pairwise_cons] at hp
    obtain ⟨hpj, hp2⟩ := hp
    by_cases h : strLt (valOf vals i) (valOf vals j)
    · rw [orderedInsertIdx, if_pos h]
      rw [List.pairwise_cons]
      constructor
      · intro b hb heq
        rw [strLt_iff] at h
        rcases List.mem_cons.mp hb with rfl | hb2
        · exact absurd heq (ne_of_lt h)
        · have hle := hj b hb2
          have : valOf vals i < valOf vals b := lt_of_lt_of_le h hle
          exact absurd heq (ne_of_lt this)
      · exact List.pairwise_cons.mpr ⟨hpj, hp2⟩
    · rw [orderedInsertIdx, if_neg h]
      rw [List.pairwise_cons]
      constructor
      · intro b hb heq
        rw [orderedInsertIdx_mem] at hb
        rcases hb with rfl | hb2
        · exact hlt j (List.mem_cons_self j l2)
        · exact hpj b hb2 heq
      · exact ih hs2 hp2 (fun x hx => hlt x (List.mem_cons_of_mem j hx))

/-- Helper: the insertion sort started from any accumulator; facts by
fold induction. -/
lemma aInsertionSort_foldl_spec (vals : List String) :
    ∀ (todo : List Nat) (acc : List Nat),
      List.Sorted (fun a b => valOf vals a ≤ valOf vals b) acc →
      (List.Sorted (fun a b => valOf vals a ≤ valOf vals b)
        (todo.foldl (fun acc2 i => orderedInsertIdx vals i acc2) acc) ∧
       ∀ x, x ∈ todo.foldl (fun acc2 i => orderedInsertIdx vals i acc2) acc ↔
         x ∈ todo ∨ x ∈ acc) := by
  intro todo
  induction todo with
  | nil =>
    intro acc hs
    exact ⟨hs, fun x => by simp⟩
  | cons i todo2 ih =>
    intro acc hs
    have hstep := orderedInsertIdx_sorted vals i acc hs
    obtain ⟨ih1, ih2⟩ := ih (orderedInsertIdx vals i acc) hstep
    refine ⟨ih1, fun x => ?_⟩
    rw [List.foldl_cons, ih2 x, orderedInsertIdx_mem]
    simp
    tauto

/-- Helper: the insertion sort of a list of indices is sorted by value
and has the same members. -/
lemma aInsertionSort_sorted_mem (vals : List String) (l : List Nat) :
    List.Sorted (fun a b => valOf vals a ≤ valOf vals b) (aInsertionSort vals l) ∧
      ∀ x, x ∈ aInsertionSort vals l ↔ x ∈ l := by
  have := aInsertionSort_foldl_spec vals l [] (by simp)
  obtain ⟨h1, h2⟩ := this
  refine ⟨h1, fun x => ?_⟩
  rw [aInsertionSort, h2 x]
  simp

/-! ## The partition: position bookkeeping -/

/-- Helper: a swap preserves length. -/
lemma lswap_length (l : List Nat) (i j : Nat) : (lswap l i j).length = l.length := by
  unfold lswap
  by_cases h : i < l.length ∧ j < l.length
  · simp [h]
  · simp [h]

/-- Helper: a swap preserves membership. -/
lemma lswap_mem (l : List Nat) (i j : Nat) : ∀ x ∈ lswap l i j, x ∈ l := by
  intro x hx
  unfold lswap at hx
  by_cases h : i < l.length ∧ j < l.length
  · rw [if_pos h] at hx
    rcases List.mem_or_eq_of_mem_set hx with hx2 | rfl
    · rcases List.mem_or_eq_of_mem_set hx2 with hx3 | rfl
      · exact hx3
      · rw [List.getD_eq_getElem?_getD, List.getElem?_eq_getElem h.2]
        exact List.getElem_mem h.2
    · rw [List.getD_eq_getElem?_getD, List.getElem?_eq_getElem h.1]
      exact List.getElem_mem h.1
  · rw [if_neg h] at hx
    exact hx

/-- Helper: the first swapped position receives the second value. -/
lemma lswap_getD_fst (l : List Nat) (i j : Nat) (hi : i < l.length) (hj : j < l.length) :
    (lswap l i j).getD i 0 = l.getD j 0 := by
  unfold lswap
  rw [if_pos ⟨hi, hj⟩]
  by_cases hij : i = j
  · subst hij
    simp only [List.getD_eq_getElem?_getD, List.getElem?_set]
    simp [hi]
  · simp only [List.getD_eq_getElem?_getD, List.getElem?_set]
    simp [Ne.symm hij, hij, hi, hj]

/-- Helper: the second swapped position receives the first value. -/
lemma lswap_getD_snd (l : List Nat) (i j : Nat) (hi : i < l.length) (hj : j < l.length) :
    (lswap l i j).getD j 0 = l.getD i 0 := by
  unfold lswap
  rw [if_pos ⟨hi, hj⟩]
  simp only [List.getD_eq_getElem?_getD, List.getElem?_set]
  simp [hj, List.length_set]

/-- Helper: a swap leaves every other position unchanged. -/
lemma lswap_getD_other (l : List Nat) (i j k : Nat) (hki : k ≠ i) (hkj : k ≠ j) :
    (lswap l i j).getD k 0 = l.getD k 0 := by
  unfold lswap
  by_cases h : i < l.length ∧ j < l.length
  · rw [if_pos h]
    simp only [List.getD_eq_getElem?_getD, List.getElem?_set]
    simp [Ne.symm hki, Ne.symm hkj, hki, hkj]
  · rw [if_neg h]

/-- Helper: the ascending scan never moves backwards. -/
lemma scanUp_ge (vals : List String) (vp : String) (l : List Nat) :
    ∀ fuel start, start ≤ scanUp vals vp l start fuel := by
  intro fuel
  induction fuel with
  | zero => intro start; exact le_refl start
  | succ f ih =>
    intro start
    rw [scanUp]
    by_cases h : strLt (valOf vals (l.getD start 0)) vp
    · rw [if_pos h]
      exact le_trans (Nat.le_succ start) (ih (start + 1))
    · rw [if_neg h]

/-- Helper: with a stopper at `q` within fuel range, the ascending scan
stops at or before `q`, at a position failing the test, with every
scanned position passing it. -/
lemma scanUp_spec (vals : List String) (vp : String) (l : List Nat) :
    ∀ fuel start q, start ≤ q → q - start < fuel →
      strLt (valOf vals (l.getD q 0)) vp = false →
      (scanUp vals vp l start fuel ≤ q ∧
       strLt (valOf vals (l.getD (scanUp vals vp l start fuel) 0)) vp = false ∧
       ∀ k, start ≤ k → k < scanUp vals vp l start fuel →
         strLt (valOf vals (l.getD k 0)) vp = true) := by
  intro fuel
  induction fuel with
  | zero => intro start q hq hfuel hstop; omega
  | succ f ih =>
    intro start q hq hfuel hstop
    rw [scanUp]
    by_cases h : strLt (valOf vals (l.getD start 0)) vp
    · rw [if_pos h]
      have hne : start ≠ q := by
        intro hc
        subst hc
        rw [hstop] at h
        exact Bool.false_ne_true h
      have hlt : start < q := lt_of_le_of_ne hq hne
      obtain ⟨h1, h2, h3⟩ := ih (start + 1) q hlt (by omega) hstop
      refine ⟨h1, h2, ?_⟩
      intro k hk1 hk2
      by_cases hk : k = start
      · subst hk
        exact h
      · exact h3 k (by omega) hk2
    · rw [if_neg h]
      refine ⟨hq, ?_, ?_⟩
      · cases hb : strLt (valOf vals (l.getD start 0)) vp with
        | false => rfl
        | true => exact absurd hb h
      · intro k hk1 hk2
        omega

/-- Helper: the descending scan never moves forwards. -/
lemma scanDown_le (vals : List String) (vp : String) (l : List Nat) :
    ∀ fuel start, scanDown vals vp l start fuel ≤ start := by
  intro fuel
  induction fuel with
  | zero => intro start; exact le_refl start
  | succ f ih =>
    intro start
    rw [scanDown]
    by_cases h : strLt vp (valOf vals (l.getD start 0))
    · rw [if_pos h]
      exact le_trans (ih (start - 1)) (Nat.sub_le start 1)
    · rw [if_neg h]

/-- Helper: with a stopper at `q` within fuel range, the descending
scan stops at or after `q`, at a position failing the test, with every
scanned position passing it. -/
lemma scanDown_spec (vals : List String) (vp : String) (l : List Nat) :
    ∀ fuel start q, q ≤ start → start - q < fuel →
      strLt vp (valOf vals (l.getD q 0)) = false →
      (q ≤ scanDown vals vp l start fuel ∧
       strLt vp (valOf vals (l.getD (scanDown vals vp l start fuel) 0)) = false ∧
       ∀ k, scanDown vals vp l start fuel < k → k ≤ start →
         strLt vp (valOf vals (l.getD k 0)) = true) := by
  intro fuel
  induction fuel with
  | zero => intro start q hq hfuel hstop; omega
  | succ f ih =>
    intro start q hq hfuel hstop
    rw [scanDown]
    by_cases h : strLt vp (valOf vals (l.getD start 0))
    · rw [if_pos h]
      have hne : q ≠ start := by
        intro hc
        subst hc
        rw [hstop] at h
        exact Bool.false_ne_true h
      have hlt : q < start := lt_of_le_of_ne hq hne
      obtain ⟨h1, h2, h3⟩ := ih (start - 1) q (by omega) (by omega) hstop
      refine ⟨h1, h2, ?_⟩
      intro k hk1 hk2
      by_cases hk : k = start
      · subst hk
        exact h
      · exact h3 k hk1 (by omega)
    · rw [if_neg h]
      refine ⟨hq, ?_, ?_⟩
      · cases hb : strLt vp (valOf vals (l.getD start 0)) with
        | false => rfl
        | true => exact absurd hb h
      · intro k hk1 hk2
        omega

/-- Helper: string strict order is asymmetric, in `strLt` form. -/
lemma strLt_true_imp_false (a b : String) (h : strLt a b = true) : strLt b a = false := by
  rw [strLt_iff] at h
  rw [strLt_eq_false_iff]
  exact le_of_lt h

/-- Helper: string strict order is irreflexive, in `strLt` form. -/
lemma strLt_self (a : String) : strLt a a = false := by
  rw [strLt_eq_false_iff]

/-- Helper: full invariant of the partition exchange loop.  Positions
at or below `pi` hold values at most the pivot value `vp`, positions
from `pj` up to the parked pivot at `length - 2` hold values at least
`vp`, and the last position holds a value at least `vp`.  The loop
then returns a crossing point between 1 and `length - 2` splitting the
list into a low and a high side, with the parked pivot untouched. -/
lemma partLoop_spec (vals : List String) (vp : String) :
    ∀ fuel l pi pj,
      17 ≤ l.length →
      pj - pi < fuel →
      pi < pj →
      pj ≤ l.length - 2 →
      (∀ k, k ≤ pi → strLt vp (valOf vals (l.getD k 0)) = false) →
      (∀ k, pj ≤ k → k ≤ l.length - 2 → strLt (valOf vals (l.getD k 0)) vp = false) →
      valOf vals (l.getD (l.length - 2) 0) = vp →
      strLt (valOf vals (l.getD (l.length - 1) 0)) vp = false →
      ((partLoop vals vp l pi pj fuel).fst.length = l.length ∧
       (∀ x ∈ (partLoop vals vp l pi pj fuel).fst, x ∈ l) ∧
       1 ≤ (partLoop vals vp l pi pj fuel).snd ∧
       (partLoop vals vp l pi pj fuel).snd ≤ l.length - 2 ∧
       (∀ k, k < (partLoop vals vp l pi pj fuel).snd →
         strLt vp (valOf vals ((partLoop vals vp l pi pj fuel).fst.getD k 0)) = false) ∧
       (∀ k, (partLoop vals vp l pi pj fuel).snd ≤ k → k ≤ l.length - 1 →
         strLt (valOf vals ((partLoop vals vp l pi pj fuel).fst.getD k 0)) vp = false) ∧
       valOf vals ((partLoop vals vp l pi pj fuel).fst.getD (l.length - 2) 0) = vp) := by
  intro fuel
  induction fuel with
  | zero => intro l pi pj hlen hfuel hpi; omega
  | succ f ih =>
    intro l pi pj hlen hfuel hpilt hpj hlow hhigh hpiv hlast
    have hstopUp : strLt (valOf vals (l.getD (l.length - 2) 0)) vp = false := by
      rw [hpiv]
      exact strLt_self vp
    have hstopDown : strLt vp (valOf vals (l.getD 0 0)) = false := hlow 0 (Nat.zero_le pi)
    obtain ⟨hu1, hu2, hu3⟩ := scanUp_spec vals vp l l.length (pi + 1) (l.length - 2)
      (by omega) (by omega) hstopUp
    obtain ⟨hd1, hd2, hd3⟩ := scanDown_spec vals vp l l.length (pj - 1) 0
      (Nat.zero_le (pj - 1)) (by omega) hstopDown
    have hu0 : pi + 1 ≤ scanUp vals vp l (pi + 1) l.length := scanUp_ge vals vp l l.length (pi + 1)
    have hd0 : scanDown vals vp l (pj - 1) l.length ≤ pj - 1 := scanDown_le vals vp l l.length (pj - 1)
    rw [partLoop]
    by_cases hbr : scanDown vals vp l (pj - 1) l.length ≤ scanUp vals vp l (pi + 1) l.length
    · rw [if_pos hbr]
      refine ⟨rfl, fun x hx => hx, by omega, hu1, ?_, ?_, hpiv⟩
      · intro k hk
        by_cases hkpi : k ≤ pi
        · exact hlow k hkpi
        · have := hu3 k (by omega) hk
          exact strLt_true_imp_false _ _ this
      · intro k hk1 hk2
        by_cases hkq : k = scanUp vals vp l (pi + 1) l.length
        · subst hkq
          exact hu2
        · have hkgt : scanUp vals vp l (pi + 1) l.length < k := lt_of_le_of_ne hk1 (Ne.symm hkq)
          by_cases hkpj : pj ≤ k
          · by_cases hkend : k ≤ l.length - 2
            · exact hhigh k hkpj hkend
            · have : k = l.length - 1 := by omega
              subst this
              exact hlast
          · have := hd3 k (by omega) (by omega)
            exact strLt_true_imp_false _ _ this
    · rw [if_neg hbr]
      have hcross : scanUp vals vp l (pi + 1) l.length < scanDown vals vp l (pj - 1) l.length := by
        omega
      have hswlen : (lswap l (scanUp vals vp l (pi + 1) l.length)
          (scanDown vals vp l (pj - 1) l.length)).length = l.length :=
        lswap_length l _ _
      have hboundUp : scanUp vals vp l (pi + 1) l.length < l.length := by omega
      have hboundDown : scanDown vals vp l (pj - 1) l.length < l.length := by omega
      have hfst := lswap_getD_fst l (scanUp vals vp l (pi + 1) l.length)
        (scanDown vals vp l (pj - 1) l.length) hboundUp hboundDown
      have hsnd := lswap_getD_snd l (scanUp vals vp l (pi + 1) l.length)
        (scanDown vals vp l (pj - 1) l.length) hboundUp hboundDown
      obtain ⟨hr1, hr2, hr3, hr4, hr5, hr6, hr7⟩ := ih
        (lswap l (scanUp vals vp l (pi + 1) l.length) (scanDown vals vp l (pj - 1) l.length))
        (scanUp vals vp l (pi + 1) l.length) (scanDown vals vp l (pj - 1) l.length)
        (by rw [hswlen]; exact hlen) (by omega) hcross (by rw [hswlen]; omega)
        (by
          intro k hk
          by_cases hke : k = scanUp vals vp l (pi + 1) l.length
          · subst hke
            rw [hfst]
            exact hd2
          · rw [lswap_getD_other l _ _ k hke (by omega)]
            by_cases hkpi : k ≤ pi
            · exact hlow k hkpi
            · exact strLt_true_imp_false _ _ (hu3 k (by omega) (by omega)))
        (by
          intro k hk1 hk2
          rw [hswlen] at hk2
          by_cases hke : k = scanDown vals vp l (pj - 1) l.length
          · subst hke
            rw [hsnd]
            exact hu2
          · rw [lswap_getD_other l _ _ k (by omega) hke]
            by_cases hkpj : pj ≤ k
            · exact hhigh k hkpj hk2
            · exact strLt_true_imp_false _ _ (hd3 k (by omega) (by omega)))
        (by
          rw [hswlen]
          rw [lswap_getD_other l _ _ (l.length - 2) (by omega) (by omega)]
          exact hpiv)
        (by
          rw [hswlen]
          rw [lswap_getD_other l _ _ (l.length - 1) (by omega) (by omega)]
          exact hlast)
      rw [hswlen] at hr1 hr4 hr6 hr7
      refine ⟨hr1, ?_, hr3, hr4, hr5, hr6, hr7⟩
      intro x hx
      exact lswap_mem l _ _ x (hr2 x hx)

/-- Helper: one conditional ordering swap orders its two positions,
keeps everything else in place, and permutes the pair. -/
lemma condSwap_spec (vals : List String) (l : List Nat) (i j : Nat)
    (hi : i < l.length) (hj : j < l.length) (_hij : i ≠ j) :
    (condSwap vals l i j).length = l.length ∧
      (∀ x ∈ condSwap vals l i j, x ∈ l) ∧
      valOf vals ((condSwap vals l i j).getD j 0) ≤
        valOf vals ((condSwap vals l i j).getD i 0) ∧
      (∀ k, k ≠ i → k ≠ j → (condSwap vals l i j).getD k 0 = l.getD k 0) ∧
      (((condSwap vals l i j).getD i 0 = l.getD i 0 ∧
        (condSwap vals l i j).getD j 0 = l.getD j 0) ∨
       ((condSwap vals l i j).getD i 0 = l.getD j 0 ∧
        (condSwap vals l i j).getD j 0 = l.getD i 0)) := by
  unfold condSwap
  by_cases h : strLt (valOf vals (l.getD i 0)) (valOf vals (l.getD j 0))
  · rw [if_pos h]
    rw [strLt_iff] at h
    refine ⟨lswap_length l i j, lswap_mem l i j, ?_, ?_, Or.inr ?_⟩
    · rw [lswap_getD_fst l i j hi hj, lswap_getD_snd l i j hi hj]
      exact le_of_lt h
    · intro k hki hkj
      exact lswap_getD_other l i j k hki hkj
    · exact ⟨lswap_getD_fst l i j hi hj, lswap_getD_snd l i j hi hj⟩
  · rw [if_neg h]
    rw [Bool.not_eq_true, strLt_eq_false_iff] at h
    exact ⟨rfl, fun x hx => hx, h, fun k _ _ => rfl, Or.inl ⟨rfl, rfl⟩⟩

/-- Helper: the median-of-3 phase keeps length and members and leaves
`v[l[0]] ≤ v[l[pm]] ≤ v[l[pr]]`. -/
lemma med3_spec (vals : List String) (l : List Nat) (hlen : 17 ≤ l.length) :
    (med3 vals l).length = l.length ∧
      (∀ x ∈ med3 vals l, x ∈ l) ∧
      valOf vals ((med3 vals l).getD 0 0) ≤
        valOf vals ((med3 vals l).getD ((l.length - 1) / 2) 0) ∧
      valOf vals ((med3 vals l).getD ((l.length - 1) / 2) 0) ≤
        valOf vals ((med3 vals l).getD (l.length - 1) 0) := by
  have hpm_pos : 0 < (l.length - 1) / 2 := by omega
  have hpm_lt : (l.length - 1) / 2 < l.length - 1 := by omega
  have hpm_bound : (l.length - 1) / 2 < l.length := by omega
  have hpr_bound : l.length - 1 < l.length := by omega
  have h0_bound : 0 < l.length := by omega
  obtain ⟨s1len, s1mem, s1ord, s1oth, s1pair⟩ :=
    condSwap_spec vals l ((l.length - 1) / 2) 0 hpm_bound h0_bound (by omega)
  obtain ⟨s2len, s2mem, s2ord, s2oth, s2pair⟩ :=
    condSwap_spec vals (condSwap vals l ((l.length - 1) / 2) 0) (l.length - 1)
      ((l.length - 1) / 2) (by omega) (by omega) (by omega)
  obtain ⟨s3len, s3mem, s3ord, s3oth, s3pair⟩ :=
    condSwap_spec vals
      (condSwap vals (condSwap vals l ((l.length - 1) / 2) 0) (l.length - 1) ((l.length - 1) / 2))
      ((l.length - 1) / 2) 0 (by omega) (by omega) (by omega)
  have hmeq : med3 vals l =
      condSwap vals
        (condSwap vals (condSwap vals l ((l.length - 1) / 2) 0) (l.length - 1) ((l.length - 1) / 2))
        ((l.length - 1) / 2) 0 := rfl
  have hB : valOf vals
      ((condSwap vals (condSwap vals l ((l.length - 1) / 2) 0) (l.length - 1)
        ((l.length - 1) / 2)).getD 0 0) ≤
      valOf vals
      ((condSwap vals (condSwap vals l ((l.length - 1) / 2) 0) (l.length - 1)
        ((l.length - 1) / 2)).getD (l.length - 1) 0) := by
    have h0eq := s2oth 0 (by omega) (by omega)
    rcases s2pair with ⟨hp1, hp2⟩ | ⟨hp1, hp2⟩
    · rw [h0eq, hp1]
      calc valOf vals ((condSwap vals l ((l.length - 1) / 2) 0).getD 0 0) ≤
            valOf vals ((condSwap vals l ((l.length - 1) / 2) 0).getD ((l.length - 1) / 2) 0) :=
            s1ord
        _ ≤ valOf vals ((condSwap vals l ((l.length - 1) / 2) 0).getD (l.length - 1) 0) := by
            rw [hp1, hp2] at s2ord
            exact s2ord
    · rw [h0eq, hp1]
      exact s1ord
  refine ⟨?_, ?_, ?_, ?_⟩
  · rw [hmeq, s3len, s2len, s1len]
  · intro x hx
    rw [hmeq] at hx
    exact s1mem x (s2mem x (s3mem x hx))
  · rw [hmeq]
    exact s3ord
  · rw [hmeq]
    have hpr_eq := s3oth (l.length - 1) (by omega) (by omega)
    rcases s3pair with ⟨hp1, hp2⟩ | ⟨hp1, hp2⟩
    · rw [hpr_eq, hp1]
      exact s2ord
    · rw [hpr_eq, hp1]
      exact hB

/-- Helper: one whole partition step splits the segment at the
returned pivot position: values on the left are at most the pivot
value, values on the right at least it, with length and members
preserved and the pivot position strictly inside the segment. -/
lemma npyPartition_spec (vals : List String) (l : List Nat) (hlen : 17 ≤ l.length) :
    (npyPartition vals l).fst.length = l.length ∧
      (∀ x ∈ (npyPartition vals l).fst, x ∈ l) ∧
      1 ≤ (npyPartition vals l).snd ∧
      (npyPartition vals l).snd ≤ l.length - 2 ∧
      (∀ k, k < (npyPartition vals l).snd →
        valOf vals ((npyPartition vals l).fst.getD k 0) ≤
          valOf vals ((npyPartition vals l).fst.getD (npyPartition vals l).snd 0)) ∧
      (∀ k, (npyPartition vals l).snd < k → k ≤ l.length - 1 →
        valOf vals ((npyPartition vals l).fst.getD (npyPartition vals l).snd 0) ≤
          valOf vals ((npyPartition vals l).fst.getD k 0)) := by
  obtain ⟨hAlen, hAmem, hAord1, hAord2⟩ := med3_spec vals l hlen
  have hpm_pos : 0 < (l.length - 1) / 2 := by omega
  have hpm_small : (l.length - 1) / 2 < l.length - 1 - 1 := by omega
  have hBlen : (lswap (med3 vals l) ((l.length - 1) / 2) (l.length - 1 - 1)).length = l.length := by
    rw [lswap_length, hAlen]
  have hB0 : (lswap (med3 vals l) ((l.length - 1) / 2) (l.length - 1 - 1)).getD 0 0 =
      (med3 vals l).getD 0 0 :=
    lswap_getD_other (med3 vals l) _ _ 0 (by omega) (by omega)
  have hBpiv : (lswap (med3 vals l) ((l.length - 1) / 2) (l.length - 1 - 1)).getD
      (l.length - 1 - 1) 0 = (med3 vals l).getD ((l.length - 1) / 2) 0 :=
    lswap_getD_snd (med3 vals l) _ _ (by omega) (by omega)
  have hBlast : (lswap (med3 vals l) ((l.length - 1) / 2) (l.length - 1 - 1)).getD
      (l.length - 1) 0 = (med3 vals l).getD (l.length - 1) 0 :=
    lswap_getD_other (med3 vals l) _ _ (l.length - 1) (by omega) (by omega)
  have hBmem : ∀ x ∈ lswap (med3 vals l) ((l.length - 1) / 2) (l.length - 1 - 1), x ∈ l :=
    fun x hx => hAmem x (lswap_mem (med3 vals l) _ _ x hx)
  obtain ⟨hP1, hP2, hP3, hP4, hP5, hP6, hP7⟩ :=
    partLoop_spec vals (valOf vals ((med3 vals l).getD ((l.length - 1) / 2) 0))
      (lswap (med3 vals l) ((l.length - 1) / 2) (l.length - 1 - 1)).length
      (lswap (med3 vals l) ((l.length - 1) / 2) (l.length - 1 - 1))
      0 (l.length - 1 - 1)
      (by rw [hBlen]; exact hlen)
      (by rw [hBlen]; omega)
      (by omega)
      (by rw [hBlen]; omega)
      (by
        intro k hk
        have hk0 : k = 0 := by omega
        subst hk0
        rw [hB0, strLt_eq_false_iff]
        exact hAord1)
      (by
        intro k hk1 hk2
        rw [hBlen] at hk2
        have hkeq : k = l.length - 1 - 1 := by omega
        subst hkeq
        rw [hBpiv, strLt_self])
      (by
        rw [hBlen, show l.length - 2 = l.length - 1 - 1 from by omega]
        exact congrArg (valOf vals) hBpiv)
      (by rw [hBlen, hBlast, strLt_eq_false_iff]; exact hAord2)
  have heq : npyPartition vals l =
      (lswap
        (partLoop vals (valOf vals ((med3 vals l).getD ((l.length - 1) / 2) 0))
          (lswap (med3 vals l) ((l.length - 1) / 2) (l.length - 1 - 1)) 0 (l.length - 1 - 1)
          (lswap (med3 vals l) ((l.length - 1) / 2) (l.length - 1 - 1)).length).fst
        (partLoop vals (valOf vals ((med3 vals l).getD ((l.length - 1) / 2) 0))
          (lswap (med3 vals l) ((l.length - 1) / 2) (l.length - 1 - 1)) 0 (l.length - 1 - 1)
          (lswap (med3 vals l) ((l.length - 1) / 2) (l.length - 1 - 1)).length).snd
        (l.length - 1 - 1),
       (partLoop vals (valOf vals ((med3 vals l).getD ((l.length - 1) / 2) 0))
          (lswap (med3 vals l) ((l.length - 1) / 2) (l.length - 1 - 1)) 0 (l.length - 1 - 1)
          (lswap (med3 vals l) ((l.length - 1) / 2) (l.length - 1 - 1)).length).snd) := rfl
  rcases hPp : partLoop vals (valOf vals ((med3 vals l).getD ((l.length - 1) / 2) 0))
      (lswap (med3 vals l) ((l.length - 1) / 2) (l.length - 1 - 1)) 0 (l.length - 1 - 1)
      (lswap (med3 vals l) ((l.length - 1) / 2) (l.length - 1 - 1)).length with ⟨F, pif⟩
  rw [hPp] at hP1 hP2 hP3 hP4 hP5 hP6 hP7 heq
  rw [hBlen] at hP1 hP4 hP6 hP7
  simp only at hP1 hP2 hP3 hP4 hP5 hP6 hP7
  rw [heq]
  simp only
  have hpif_lt : pif < l.length := by omega
  have hm2_lt : l.length - 1 - 1 < l.length := by omega
  have hFlen : F.length = l.length := hP1
  have hswlen : (lswap F pif (l.length - 1 - 1)).length = l.length := by
    rw [lswap_length, hFlen]
  have hfinpiv : (lswap F pif (l.length - 1 - 1)).getD pif 0 = F.getD (l.length - 1 - 1) 0 :=
    lswap_getD_fst F pif (l.length - 1 - 1) (by omega) (by omega)
  have hvp : valOf vals (F.getD (l.length - 1 - 1) 0) =
      valOf vals ((med3 vals l).getD ((l.length - 1) / 2) 0) := by
    rw [show l.length - 1 - 1 = l.length - 2 from by omega]
    exact hP7
  refine ⟨hswlen, ?_, hP3, by omega, ?_, ?_⟩
  · intro x hx
    exact hBmem x (hP2 x (lswap_mem F _ _ x hx))
  · intro k hk
    have hkothers : (lswap F pif (l.length - 1 - 1)).getD k 0 = F.getD k 0 :=
      lswap_getD_other F pif (l.length - 1 - 1) k (by omega) (by omega)
    rw [hkothers, hfinpiv, hvp]
    rw [← strLt_eq_false_iff]
    exact hP5 k hk
  · intro k hk1 hk2
    rw [hfinpiv, hvp]
    by_cases hkm : k = l.length - 1 - 1
    · subst hkm
      have hksnd : (lswap F pif (l.length - 1 - 1)).getD (l.length - 1 - 1) 0 = F.getD pif 0 :=
        lswap_getD_snd F pif (l.length - 1 - 1) (by omega) (by omega)
      rw [hksnd, ← strLt_eq_false_iff]
      exact hP6 pif (le_refl pif) (by omega)
    · have hkothers : (lswap F pif (l.length - 1 - 1)).getD k 0 = F.getD k 0 :=
        lswap_getD_other F pif (l.length - 1 - 1) k (by omega) hkm
      rw [hkothers, ← strLt_eq_false_iff]
      exact hP6 k (by omega) hk2

/-- Helper: every member of a `take` prefix sits at a position below
the cut, as a `getD` fact. -/
lemma mem_take_getD (l : List Nat) (m : Nat) (x : Nat) (hx : x ∈ l.take m) :
    ∃ k, k < m ∧ k < l.length ∧ l.getD k 0 = x := by
  obtain ⟨i, hi, hget⟩ := List.mem_iff_getElem.mp hx
  have hi2 : i < l.length := by
    have := List.length_take m l
    omega
  refine ⟨i, ?_, hi2, ?_⟩
  · have := List.length_take m l
    omega
  · rw [List.getD_eq_getElem l 0 hi2]
    rw [List.getElem_take] at hget
    exact hget

/-- Helper: every member of a `drop` suffix sits at a position past the
cut, as a `getD` fact. -/
lemma mem_drop_getD (l : List Nat) (m : Nat) (x : Nat) (hx : x ∈ l.drop m) :
    ∃ k, m ≤ k ∧ k < l.length ∧ l.getD k 0 = x := by
  obtain ⟨i, hi, hget⟩ := List.mem_iff_getElem.mp hx
  have hi2 : m + i < l.length := by
    have := List.length_drop m l
    omega
  refine ⟨m + i, by omega, hi2, ?_⟩
  rw [List.getD_eq_getElem l 0 hi2]
  rw [List.getElem_drop] at hget
  exact hget

/-- Helper: the recursive segment sort returns its members sorted by
value, whenever the fuel covers the segment length; the initial call
`npyArgsort` always satisfies this. -/
lemma npyQuickSeg_spec (vals : List String) :
    ∀ fuel l, l.length ≤ fuel + 16 →
      (List.Sorted (fun a b => valOf vals a ≤ valOf vals b) (npyQuickSeg vals fuel l) ∧
       ∀ x ∈ npyQuickSeg vals fuel l, x ∈ l) := by
  intro fuel
  induction fuel with
  | zero =>
    intro l hl
    have hsmall : l.length ≤ SMALL_QUICKSORT + 1 := by
      rw [show SMALL_QUICKSORT = 15 from rfl]
      omega
    unfold npyQuickSeg
    rw [if_pos hsmall]
    obtain ⟨h1, h2⟩ := aInsertionSort_sorted_mem vals l
    exact ⟨h1, fun x hx => (h2 x).mp hx⟩
  | succ f ih =>
    intro l hl
    by_cases hsmall : l.length ≤ SMALL_QUICKSORT + 1
    · unfold npyQuickSeg
      rw [if_pos hsmall]
      obtain ⟨h1, h2⟩ := aInsertionSort_sorted_mem vals l
      exact ⟨h1, fun x hx => (h2 x).mp hx⟩
    · have hlen17 : 17 ≤ l.length := by
        rw [show SMALL_QUICKSORT = 15 from rfl] at hsmall
        omega
      obtain ⟨hp1, hp2, hp3, hp4, hp5, hp6⟩ := npyPartition_spec vals l hlen17
      rcases hpt : npyPartition vals l with ⟨l2, pif⟩
      rw [hpt] at hp1 hp2 hp3 hp4 hp5 hp6
      simp only at hp1 hp2 hp3 hp4 hp5 hp6
      have hql : npyQuickSeg vals (f + 1) l =
          npyQuickSeg vals f (l2.take pif) ++ [l2.getD pif 0]
            ++ npyQuickSeg vals f (l2.drop (pif + 1)) := by
        conv_lhs => rw [npyQuickSeg]
        rw [if_neg hsmall, hpt]
      have htlen : (l2.take pif).length ≤ f + 16 := by
        rw [List.length_take]
        have : pif ≤ l.length - 2 := hp4
        omega
      have hdlen : (l2.drop (pif + 1)).length ≤ f + 16 := by
        rw [List.length_drop, hp1]
        omega
      obtain ⟨hs1, hm1⟩ := ih (l2.take pif) htlen
      obtain ⟨hs2, hm2⟩ := ih (l2.drop (pif + 1)) hdlen
      have hpif_lt : pif < l2.length := by omega
      have hlow : ∀ a ∈ npyQuickSeg vals f (l2.take pif),
          valOf vals a ≤ valOf vals (l2.getD pif 0) := by
        intro a ha
        obtain ⟨k, hk1, hk2, hk3⟩ := mem_take_getD l2 pif a (hm1 a ha)
        rw [← hk3]
        exact hp5 k hk1
      have hhigh : ∀ b ∈ npyQuickSeg vals f (l2.drop (pif + 1)),
          valOf vals (l2.getD pif 0) ≤ valOf vals b := by
        intro b hb
        obtain ⟨k, hk1, hk2, hk3⟩ := mem_drop_getD l2 (pif + 1) b (hm2 b hb)
        rw [← hk3]
        refine hp6 k (by omega) (by omega)
      rw [hql]
      constructor
      · show List.Pairwise _ _
        rw [List.pairwise_append]
        refine ⟨?_, hs2, ?_⟩
        · rw [List.pairwise_append]
          refine ⟨hs1, List.sorted_singleton _, ?_⟩
          intro a ha b hb
          rw [List.mem_singleton] at hb
          subst hb
          exact hlow a ha
        · intro a ha b hb
          rcases List.mem_append.mp ha with ha2 | ha2
          · exact le_trans (hlow a ha2) (hhigh b hb)
          · rw [List.mem_singleton] at ha2
            subst ha2
            exact hhigh b hb
      · intro x hx
        rcases List.mem_append.mp hx with hx2 | hx2
        · rcases List.mem_append.mp hx2 with hx3 | hx3
          · exact hp2 x (List.take_subset pif l2 (hm1 x hx3))
          · rw [List.mem_singleton] at hx3
            subst hx3
            refine hp2 _ ?_
            rw [List.getD_eq_getElem l2 0 hpif_lt]
            exact List.getElem_mem hpif_lt
        · exact hp2 x (List.drop_subset (pif + 1) l2 (hm2 x hx2))

/-! ## The nargsort split and the key column -/

/-- Helper: full description of `splitKeys` from offset `i0`: the
non-NaN pairs alias the `some` entries of the column at their
positions, the NaN positions alias the `none` entries, and both
position lists are strictly increasing. -/
lemma splitKeys_spec : ∀ (ks : List (Option String)) (i0 : Nat),
    (∀ p ∈ (splitKeys i0 ks).fst, i0 ≤ p.fst ∧ p.fst < i0 + ks.length ∧
      ks.getD (p.fst - i0) none = some p.snd) ∧
    (∀ q ∈ (splitKeys i0 ks).snd, i0 ≤ q ∧ q < i0 + ks.length ∧
      ks.getD (q - i0) none = none) ∧
    List.Sorted (· < ·) ((splitKeys i0 ks).fst.map Prod.fst) ∧
    List.Sorted (· < ·) (splitKeys i0 ks).snd := by
  intro ks
  induction ks with
  | nil =>
    intro i0
    refine ⟨?_, ?_, ?_, ?_⟩ <;> simp [splitKeys]
  | cons k ks2 ih =>
    intro i0
    obtain ⟨ih1, ih2, ih3, ih4⟩ := ih (i0 + 1)
    cases k with
    | none =>
      refine ⟨?_, ?_, ?_, ?_⟩
      · intro p hp
        simp only [splitKeys] at hp
        obtain ⟨h1, h2, h3⟩ := ih1 p hp
        refine ⟨by omega, by simp only [List.length_cons]; omega, ?_⟩
        rw [show p.fst - i0 = (p.fst - (i0 + 1)) + 1 from by omega]
        simpa using h3
      · intro q hq
        simp only [splitKeys] at hq
        rcases List.mem_cons.mp hq with rfl | hq2
        · refine ⟨le_refl q, by simp only [List.length_cons]; omega, by simp⟩
        · obtain ⟨h1, h2, h3⟩ := ih2 q hq2
          refine ⟨by omega, by simp only [List.length_cons]; omega, ?_⟩
          rw [show q - i0 = (q - (i0 + 1)) + 1 from by omega]
          simpa using h3
      · simpa [splitKeys] using ih3
      · simp only [splitKeys]
        rw [List.sorted_cons]
        refine ⟨?_, ih4⟩
        intro b hb
        have := (ih2 b hb).1
        omega
    | some s =>
      refine ⟨?_, ?_, ?_, ?_⟩
      · intro p hp
        simp only [splitKeys] at hp
        rcases List.mem_cons.mp hp with rfl | hp2
        · refine ⟨le_refl i0, by simp only [List.length_cons]; omega, by simp⟩
        · obtain ⟨h1, h2, h3⟩ := ih1 p hp2
          refine ⟨by omega, by simp only [List.length_cons]; omega, ?_⟩
          rw [show p.fst - i0 = (p.fst - (i0 + 1)) + 1 from by omega]
          simpa using h3
      · intro q hq
        simp only [splitKeys] at hq
        obtain ⟨h1, h2, h3⟩ := ih2 q hq
        refine ⟨by omega, by simp only [List.length_cons]; omega, ?_⟩
        rw [show q - i0 = (q - (i0 + 1)) + 1 from by omega]
        simpa using h3
      · simp only [splitKeys, List.map_cons]
        rw [List.sorted_cons]
        refine ⟨?_, ih3⟩
        intro b hb
        rw [List.mem_map] at hb
        obtain ⟨p, hp, rfl⟩ := hb
        have := (ih1 p hp).1
        omega
      · simpa [splitKeys] using ih4

/-- Helper: a cell whose key is `none` is the `None` cell. -/
lemma cellKey_none_inv (c : Cell) (h : cellKey c = Except.ok none) : c = none := by
  cases c with
  | none => rfl
  | some v =>
    cases v <;> simp [cellKey] at h

/-- Helper: a cell whose key is a string is that string cell. -/
lemma cellKey_some_inv (c : Cell) (s : String) (h : cellKey c = Except.ok (some s)) :
    c = some (Json.str s) := by
  cases c with
  | none => simp [cellKey] at h
  | some v =>
    cases v <;> simp [cellKey] at h
    rw [h]

/-- Helper: a successful key-column extraction aligns position by
position with the rows. -/
lemma columnKeys_spec (keyIdx : Nat) :
    ∀ (rows : List Row) (keys : List (Option String)),
      columnKeys keyIdx rows = Except.ok keys →
      keys.length = rows.length ∧
      ∀ i, i < rows.length →
        cellKey ((rows.getD i []).getD keyIdx none) = Except.ok (keys.getD i none) := by
  intro rows
  induction rows with
  | nil =>
    intro keys h
    simp only [columnKeys] at h
    cases h
    exact ⟨rfl, by intro i hi; simp at hi⟩
  | cons r rs ih =>
    intro keys h
    simp only [columnKeys] at h
    cases hc : cellKey (r.getD keyIdx none) with
    | error e => rw [hc] at h; cases h
    | ok k =>
      rw [hc] at h
      cases hrest : columnKeys keyIdx rs with
      | error e => rw [hrest] at h; cases h
      | ok ks =>
        rw [hrest] at h
        cases h
        obtain ⟨ihlen, ihget⟩ := ih ks hrest
        refine ⟨by simp [ihlen], ?_⟩
        intro i hi
        cases i with
        | zero => simpa using hc
        | succ i2 =>
          simp only [List.getD_cons_succ]
          exact ihget i2 (by simpa using hi)

/-- Helper: extracting the strings back out of a list of string cells
built over a permutation yields the mapped strings. -/
lemma filterMap_cellStr_eq_map : ∀ (perm : List Nat) (F : Nat → String) (G : Nat → Cell),
    (∀ j ∈ perm, G j = some (Json.str (F j))) →
    (perm.map G).filterMap cellStr = perm.map F := by
  intro perm
  induction perm with
  | nil => intro F G h; rfl
  | cons j js ih =>
    intro F G h
    rw [List.map_cons, List.map_cons, List.filterMap_cons]
    rw [h j (List.mem_cons_self j js)]
    rw [show cellStr (some (Json.str (F j))) = some (F j) from rfl]
    rw [ih F G (fun a ha => h a (List.mem_cons_of_mem j ha))]

/-- C10.  In the sorted output of `sort_values` on the `start_time`
column, every row whose key cell is null comes after every row with a
non-null key (nulls form a suffix: a null at position `u` forces a
null at every later position `v`), and the non-null keys appear in
lexicographically non-decreasing string order (string `≤` is the
code-point lexicographic order Python uses to compare timestamps). -/
theorem c10_nulls_last_lex_sorted (keyIdx : Nat) (rows sorted : List Row)
    (h : sort_values keyIdx rows = Except.ok sorted) :
    (∀ u v, u < v → v < sorted.length →
      (sorted.getD u []).getD keyIdx none = none →
      (sorted.getD v []).getD keyIdx none = none) ∧
    List.Sorted (· ≤ ·) ((sorted.map (fun r => r.getD keyIdx none)).filterMap cellStr) := by
  unfold sort_values at h
  cases hck : columnKeys keyIdx rows with
  | error e => rw [hck] at h; cases h
  | ok keys =>
    rw [hck] at h
    cases h
    obtain ⟨hklen, hkcell⟩ := columnKeys_spec keyIdx rows keys hck
    obtain ⟨s1, s2, s3, s4⟩ := splitKeys_spec keys 0
    have hvlen : ((splitKeys 0 keys).fst.map Prod.snd).length = (splitKeys 0 keys).fst.length :=
      List.length_map _ _
    have hilen : ((splitKeys 0 keys).fst.map Prod.fst).length = (splitKeys 0 keys).fst.length :=
      List.length_map _ _
    obtain ⟨hqs, hqm⟩ := npyQuickSeg_spec ((splitKeys 0 keys).fst.map Prod.snd)
      ((splitKeys 0 keys).fst.map Prod.snd).length
      (List.range ((splitKeys 0 keys).fst.map Prod.snd).length)
      (by rw [List.length_range]; omega)
    have hpm : ∀ j ∈ npyArgsort ((splitKeys 0 keys).fst.map Prod.snd),
        j < (splitKeys 0 keys).fst.length := by
      intro j hj
      have := hqm j hj
      rw [List.mem_range] at this
      omega
    have factA : ∀ j, j < (splitKeys 0 keys).fst.length →
        ((splitKeys 0 keys).fst.map Prod.fst).getD j 0 < rows.length ∧
        keys.getD (((splitKeys 0 keys).fst.map Prod.fst).getD j 0) none =
          some (((splitKeys 0 keys).fst.map Prod.snd).getD j "") := by
      intro j hj
      have hjm : j < ((splitKeys 0 keys).fst.map Prod.fst).length := by omega
      have hjv : j < ((splitKeys 0 keys).fst.map Prod.snd).length := by omega
      have hp : (splitKeys 0 keys).fst[j] ∈ (splitKeys 0 keys).fst := List.getElem_mem hj
      obtain ⟨ha1, ha2, ha3⟩ := s1 _ hp
      rw [List.getD_eq_getElem _ 0 hjm, List.getD_eq_getElem _ "" hjv,
        List.getElem_map, List.getElem_map]
      rw [Nat.sub_zero] at ha3
      rw [Nat.zero_add] at ha2
      exact ⟨by omega, ha3⟩
    have factB : ∀ q ∈ (splitKeys 0 keys).snd, q < rows.length ∧ keys.getD q none = none := by
      intro q hq
      obtain ⟨hb1, hb2, hb3⟩ := s2 q hq
      rw [Nat.zero_add] at hb2
      rw [Nat.sub_zero] at hb3
      exact ⟨by omega, hb3⟩
    have hcell_some : ∀ j ∈ npyArgsort ((splitKeys 0 keys).fst.map Prod.snd),
        ((rows.getD (((splitKeys 0 keys).fst.map Prod.fst).getD j 0) []).getD keyIdx none) =
          some (Json.str (((splitKeys 0 keys).fst.map Prod.snd).getD j "")) := by
      intro j hj
      obtain ⟨hlt, hkey⟩ := factA j (hpm j hj)
      have := hkcell _ hlt
      rw [hkey] at this
      exact cellKey_some_inv _ _ this
    have hcell_none : ∀ q ∈ (splitKeys 0 keys).snd,
        ((rows.getD q []).getD keyIdx none) = none := by
      intro q hq
      obtain ⟨hlt, hkey⟩ := factB q hq
      have := hkcell _ hlt
      rw [hkey] at this
      exact cellKey_none_inv _ this
    have hsplit : nargsort keys =
        (npyArgsort ((splitKeys 0 keys).fst.map Prod.snd)).map
          (fun j => ((splitKeys 0 keys).fst.map Prod.fst).getD j 0) ++
        (splitKeys 0 keys).snd := rfl
    constructor
    · intro u v huv hv hnull
      rw [hsplit, List.map_append] at hv hnull ⊢
      have hL1len : (((npyArgsort ((splitKeys 0 keys).fst.map Prod.snd)).map
          (fun j => ((splitKeys 0 keys).fst.map Prod.fst).getD j 0)).map
          (fun i => rows.getD i [])).length =
          (npyArgsort ((splitKeys 0 keys).fst.map Prod.snd)).length := by
        simp
      have hu_ge : (((npyArgsort ((splitKeys 0 keys).fst.map Prod.snd)).map
          (fun j => ((splitKeys 0 keys).fst.map Prod.fst).getD j 0)).map
          (fun i => rows.getD i [])).length ≤ u := by
        by_contra hc
        rw [not_le] at hc
        rw [List.getD_append _ _ _ u hc] at hnull
        rw [List.getD_eq_getElem _ [] hc] at hnull
        rw [List.getElem_map, List.getElem_map] at hnull
        rw [hcell_some _ (List.getElem_mem (by
          rw [hL1len] at hc
          exact hc))] at hnull
        cases hnull
      rw [List.length_append] at hv
      rw [List.getD_append_right _ _ _ v (by omega)]
      have hvbound : v - (((npyArgsort ((splitKeys 0 keys).fst.map Prod.snd)).map
          (fun j => ((splitKeys 0 keys).fst.map Prod.fst).getD j 0)).map
          (fun i => rows.getD i [])).length <
          ((splitKeys 0 keys).snd.map (fun i => rows.getD i [])).length := by
        omega
      rw [List.getD_eq_getElem _ [] hvbound]
      rw [List.getElem_map]
      exact hcell_none _ (List.getElem_mem (by
        simp only [List.length_map] at hvbound ⊢
        omega))
    · have hpart2 : (((splitKeys 0 keys).snd.map (fun i => rows.getD i [])).map
          (fun r => r.getD keyIdx none)).filterMap cellStr = [] := by
        rw [List.filterMap_eq_nil_iff]
        intro a ha
        rw [List.mem_map] at ha
        obtain ⟨c, hc, rfl⟩ := ha
        rw [List.mem_map] at hc
        obtain ⟨q, hq, rfl⟩ := hc
        rw [hcell_none q hq]
        rfl
      have hlist : ((((nargsort keys).map (fun i => rows.getD i [])).map
          (fun r => r.getD keyIdx none)).filterMap cellStr) =
          (npyArgsort ((splitKeys 0 keys).fst.map Prod.snd)).map
            (valOf ((splitKeys 0 keys).fst.map Prod.snd)) := by
        rw [hsplit, List.map_append, List.map_append, List.filterMap_append, hpart2,
          List.append_nil, List.map_map, List.map_map]
        exact filterMap_cellStr_eq_map _ _ _ (fun j hj => hcell_some j hj)
      rw [hlist]
      exact List.pairwise_map.mpr hqs

/-! ## Stability of the insertion-sort regime -/

/-- Helper: a strictly increasing index list is strictly increasing at
`getD` positions. -/
lemma sorted_lt_getD_mono (l : List Nat) (hs : List.Sorted (· < ·) l) (a b : Nat)
    (ha : a < l.length) (hb : b < l.length) (hab : a < b) : l.getD a 0 < l.getD b 0 := by
  rw [List.getD_eq_getElem l 0 ha, List.getD_eq_getElem l 0 hb]
  exact hs.rel_get_of_lt hab

/-- Helper: folding insertions of strictly increasing fresh indices
into a sorted, stable accumulator keeps the output stable: positions
with equal values appear by increasing index. -/
lemma aInsertionSort_stable (vals : List String) :
    ∀ (todo acc : List Nat),
      List.Sorted (fun a b => valOf vals a ≤ valOf vals b) acc →
      acc.Pairwise (fun a b => valOf vals a = valOf vals b → a < b) →
      (∀ x ∈ acc, ∀ y ∈ todo, x < y) →
      todo.Pairwise (· < ·) →
      (todo.foldl (fun acc2 i => orderedInsertIdx vals i acc2) acc).Pairwise
        (fun a b => valOf vals a = valOf vals b → a < b) := by
  intro todo
  induction todo with
  | nil => intro acc _ hp _ _; exact hp
  | cons i todo2 ih =>
    intro acc hs hp hcross htodo
    rw [List.foldl_cons]
    rw [List.pairwise_cons] at htodo
    obtain ⟨hihead, htodo2⟩ := htodo
    refine ih (orderedInsertIdx vals i acc) (orderedInsertIdx_sorted vals i acc hs)
      (orderedInsertIdx_stable vals i acc hs hp
        (fun x hx => hcross x hx i (List.mem_cons_self i todo2))) ?_ htodo2
    intro x hx y hy
    rw [orderedInsertIdx_mem] at hx
    rcases hx with rfl | hx2
    · exact hihead y hy
    · exact hcross x hx2 y (List.mem_cons_of_mem i hy)

/-- Helper: the insertion sort of `0, ..., m - 1` is stable. -/
lemma aInsertionSort_stable_range (vals : List String) (m : Nat) :
    (aInsertionSort vals (List.range m)).Pairwise
      (fun a b => valOf vals a = valOf vals b → a < b) :=
  aInsertionSort_stable vals (List.range m) [] (by simp) (by simp) (by simp)
    (List.pairwise_lt_range m)

/-- Helper: in the insertion-sort regime (at most 16 non-NaN keys) the
numpy argsort is exactly the stable insertion sort. -/
lemma npyArgsort_small (vals : List String) (hsmall : vals.length ≤ 16) :
    npyArgsort vals = aInsertionSort vals (List.range vals.length) := by
  unfold npyArgsort
  conv_lhs => rw [npyQuickSeg.eq_def]
  dsimp only
  rw [if_pos]
  rw [List.length_range]
  rw [show SMALL_QUICKSORT = 15 from rfl]
  omega

/-- C4 (amended).  The final per-kind sort is NOT stable in general
(see the counterexample: the default numpy quicksort reorders ties once
a partition step runs); it is stable exactly in the insertion-sort
regime, when at most 16 rows of the kind have a non-null `start_time`:
then any two positions of the input with equal key appear in the
output permutation in their encounter order, and the sorted table is
that permutation of the rows. -/
theorem c4_sort_stable_up_to_16 (keyIdx : Nat) (rows : List Row)
    (keys : List (Option String)) (sorted : List Row)
    (hck : columnKeys keyIdx rows = Except.ok keys)
    (hs : sort_values keyIdx rows = Except.ok sorted)
    (hsmall : (splitKeys 0 keys).fst.length ≤ 16) :
    sorted = (nargsort keys).map (fun i => rows.getD i []) ∧
      (nargsort keys).Pairwise
        (fun p q => keys.getD p none = keys.getD q none → p < q) := by
  unfold sort_values at hs
  rw [hck] at hs
  cases hs
  refine ⟨rfl, ?_⟩
  obtain ⟨s1, s2, s3, s4⟩ := splitKeys_spec keys 0
  have hvlen : ((splitKeys 0 keys).fst.map Prod.snd).length = (splitKeys 0 keys).fst.length :=
    List.length_map _ _
  have hilen : ((splitKeys 0 keys).fst.map Prod.fst).length = (splitKeys 0 keys).fst.length :=
    List.length_map _ _
  obtain ⟨hqs, hqm⟩ := npyQuickSeg_spec ((splitKeys 0 keys).fst.map Prod.snd)
    ((splitKeys 0 keys).fst.map Prod.snd).length
    (List.range ((splitKeys 0 keys).fst.map Prod.snd).length)
    (by rw [List.length_range]; omega)
  have hpm : ∀ j ∈ npyArgsort ((splitKeys 0 keys).fst.map Prod.snd),
      j < (splitKeys 0 keys).fst.length := by
    intro j hj
    have := hqm j hj
    rw [List.mem_range] at this
    omega
  have factA : ∀ j, j < (splitKeys 0 keys).fst.length →
      keys.getD (((splitKeys 0 keys).fst.map Prod.fst).getD j 0) none =
        some (((splitKeys 0 keys).fst.map Prod.snd).getD j "") := by
    intro j hj
    have hjm : j < ((splitKeys 0 keys).fst.map Prod.fst).length := by omega
    have hjv : j < ((splitKeys 0 keys).fst.map Prod.snd).length := by omega
    have hp : (splitKeys 0 keys).fst[j] ∈ (splitKeys 0 keys).fst := List.getElem_mem hj
    obtain ⟨ha1, ha2, ha3⟩ := s1 _ hp
    rw [List.getD_eq_getElem _ 0 hjm, List.getD_eq_getElem _ "" hjv,
      List.getElem_map, List.getElem_map]
    rw [Nat.sub_zero] at ha3
    exact ha3
  have hstable : (npyArgsort ((splitKeys 0 keys).fst.map Prod.snd)).Pairwise
      (fun a b => valOf ((splitKeys 0 keys).fst.map Prod.snd) a =
        valOf ((splitKeys 0 keys).fst.map Prod.snd) b → a < b) := by
    rw [npyArgsort_small _ (by omega)]
    exact aInsertionSort_stable_range _ _
  have hsplit : nargsort keys =
      (npyArgsort ((splitKeys 0 keys).fst.map Prod.snd)).map
        (fun j => ((splitKeys 0 keys).fst.map Prod.fst).getD j 0) ++
      (splitKeys 0 keys).snd := rfl
  rw [hsplit, List.pairwise_append]
  refine ⟨?_, ?_, ?_⟩
  · rw [List.pairwise_map]
    refine List.Pairwise.imp_of_mem ?_ hstable
    intro a b ha hb himp heq
    have haltb : a < (splitKeys 0 keys).fst.length := hpm a ha
    have hbltb : b < (splitKeys 0 keys).fst.length := hpm b hb
    have haval := factA a haltb
    have hbval := factA b hbltb
    rw [haval, hbval] at heq
    have hveq : ((splitKeys 0 keys).fst.map Prod.snd).getD a "" =
        ((splitKeys 0 keys).fst.map Prod.snd).getD b "" := by
      injection heq
    have hab := himp hveq
    exact sorted_lt_getD_mono _ s3 a b (by omega) (by omega) hab
  · refine List.Pairwise.imp ?_ s4
    intro a b hab _
    exact hab
  · intro p hp q hq heq
    rw [List.mem_map] at hp
    obtain ⟨a, ha, rfl⟩ := hp
    have hpval := factA a (hpm a ha)
    obtain ⟨hq1, hq2, hq3⟩ := s2 q hq
    rw [Nat.sub_zero] at hq3
    rw [hpval, hq3] at heq
    cases heq

/-- C4 counterexample: with 17 records of the same kind sharing one
start_time (the first input size at which the default numpy quicksort
leaves its insertion-sort regime and runs a partition step), the
records, encountered with distances 0, ..., 16 in order, come out in
the order 0, 14, 13, 12, 11, 10, 9, 15, 8, 6, 5, 4, 3, 2, 1, 7, 16:
in particular record 1 was encountered before record 14 and both share
the same start_time, yet the output places record 14 at position 1 and
record 1 at position 14, refuting stability. -/
theorem c4_counterexample :
    main_tables [c4_file] =
        Except.ok
          ([0, 14, 13, 12, 11, 10, 9, 15, 8, 6, 5, 4, 3, 2, 1, 7, 16].map c4_row, []) ∧
      (objs_of_file c4_file).getD 1 Json.null = c4_rec 1 ∧
      (objs_of_file c4_file).getD 14 Json.null = c4_rec 14 ∧
      (c4_row 1).getD 5 none = some (Json.str "2021-01-01T00:00:00Z") ∧
      (c4_row 14).getD 5 none = some (Json.str "2021-01-01T00:00:00Z") ∧
      ([0, 14, 13, 12, 11, 10, 9, 15, 8, 6, 5, 4, 3, 2, 1, 7, 16].map c4_row).getD 1 []
        = c4_row 14 ∧
      ([0, 14, 13, 12, 11, 10, 9, 15, 8, 6, 5, 4, 3, 2, 1, 7, 16].map c4_row).getD 14 []
        = c4_row 1 ∧
      (c4_row 1).getD 7 none = some (Json.num 1) ∧
      (c4_row 14).getD 7 none = some (Json.num 14) := by
  exact ⟨rfl, rfl, rfl, rfl, rfl, rfl, rfl, rfl, rfl⟩

/-- C4 witness (for the amended stability statement): three rows, the
first two sharing a start_time and the third with a null one; with at
most 16 non-null keys the sort is the stable insertion sort, the
output permutation is [0, 1, 2] and equal keys stay in encounter
order. -/
theorem c4_witness :
    [c4_row 0, c4_row 1, actRowNull] =
        (nargsort [some "2021-01-01T00:00:00Z", some "2021-01-01T00:00:00Z", none]).map
          (fun i => [c4_row 0, c4_row 1, actRowNull].getD i []) ∧
      (nargsort [some "2021-01-01T00:00:00Z", some "2021-01-01T00:00:00Z", none]).Pairwise
        (fun p q =>
          [some "2021-01-01T00:00:00Z", some "2021-01-01T00:00:00Z", none].getD p none =
            [some "2021-01-01T00:00:00Z", some "2021-01-01T00:00:00Z", none].getD q none →
          p < q) :=
  c4_sort_stable_up_to_16 5 [c4_row 0, c4_row 1, actRowNull]
    [some "2021-01-01T00:00:00Z", some "2021-01-01T00:00:00Z", none]
    [c4_row 0, c4_row 1, actRowNull] rfl rfl (by decide)

/-- C10 witness: three rows with start times February, null, January;
the sorted output is [January, February, null]: the null row is last
and the non-null keys are in lexicographic order. -/
theorem c10_witness :
    (∀ u v, u < v →
      v < ([actRowOf "2021-01-01T00:00:00Z" 3, actRowOf "2021-02-01T00:00:00Z" 7,
        actRowNull] : List Row).length →
      (([actRowOf "2021-01-01T00:00:00Z" 3, actRowOf "2021-02-01T00:00:00Z" 7,
        actRowNull] : List Row).getD u []).getD 5 none = none →
      (([actRowOf "2021-01-01T00:00:00Z" 3, actRowOf "2021-02-01T00:00:00Z" 7,
        actRowNull] : List Row).getD v []).getD 5 none = none) ∧
    List.Sorted (· ≤ ·)
      ((([actRowOf "2021-01-01T00:00:00Z" 3, actRowOf "2021-02-01T00:00:00Z" 7,
        actRowNull] : List Row).map (fun r => r.getD 5 none)).filterMap cellStr) :=
  c10_nulls_last_lex_sorted 5
    [actRowOf "2021-02-01T00:00:00Z" 7, actRowNull, actRowOf "2021-01-01T00:00:00Z" 3]
    [actRowOf "2021-01-01T00:00:00Z" 3, actRowOf "2021-02-01T00:00:00Z" 7, actRowNull]
    rfl
